import Mathlib

/-!
Verification of the TransQA analysis pipeline (missing-translation-app).

This file gives a shallow embedding, in Lean 4, of the core of the
repository: the issue data model, the heuristic leak detector, the
composite verifier post-processing (deduplication and overlap merging),
the composite language detector voting, the base language detector, and
the analysis orchestrator (`analyze_url` and `_calculate_stats`).

Python `float` arithmetic is modelled with `ℚ` (the penalty weights and
confidence values in the source are small decimal constants), character
offsets and counts with `Int`/`Nat`, fallible calls with `Except`.
Regular-expression scans from the source are hand-translated to explicit
scanners over `List Char`; the Unicode-aware classes (`\w`, `\s`) are
modelled on the alphabet the program works with (ASCII plus the Latin
letters appearing in the source's own language patterns).
-/

namespace TransQA

/-- Python whitespace for `str.strip` / `\s`: modelled on the ASCII
whitespace characters (the program's texts; a subset of Unicode `\s`). -/
def isPySpace (c : Char) : Bool :=
  c = ' ' || c = '\t' || c = '\n' || c = '\r' || c = '\x0b' || c = '\x0c'

/-- `str.strip()` on a character list. -/
def pyStripList (cs : List Char) : List Char :=
  (cs.dropWhile isPySpace).reverse.dropWhile isPySpace |>.reverse

/-- `str.strip()`. -/
def pyStrip (s : String) : String :=
  String.mk (pyStripList s.data)

/-- The accented Latin letters appearing in the source's language
patterns (`áéíóúüñÁÉÍÓÚÜÑëïöüÿ` and the Spanish inverted marks are
handled separately where the source uses them). -/
def accentedLower : List Char := ['á', 'é', 'í', 'ó', 'ú', 'ü', 'ñ', 'ë', 'ï', 'ö', 'ÿ']

def accentedUpper : List Char := ['Á', 'É', 'Í', 'Ó', 'Ú', 'Ü', 'Ñ']

/-- Python regex `\w` (word character), modelled on the alphabet in play:
ASCII alphanumerics, underscore, and the accented Latin letters used by
the program's language patterns.  (In Python `\w` is Unicode-wide; the
program only ever distinguishes word from non-word on these letters.) -/
def isWordChar (c : Char) : Bool :=
  c.isAlphanum || c = '_' || accentedLower.contains c || accentedUpper.contains c

/-- ASCII letter (`[a-zA-Z]`). -/
def isAsciiLetter (c : Char) : Bool :=
  ('a' ≤ c && c ≤ 'z') || ('A' ≤ c && c ≤ 'Z')

/-- Python `str.lower()`, modelled for ASCII plus the uppercase accented
letters in the source's patterns. -/
def pyLowerChar (c : Char) : Char :=
  if 'A' ≤ c ∧ c ≤ 'Z' then Char.ofNat (c.toNat + 32)
  else if c = 'Á' then 'á' else if c = 'É' then 'é' else if c = 'Í' then 'í'
  else if c = 'Ó' then 'ó' else if c = 'Ú' then 'ú' else if c = 'Ü' then 'ü'
  else if c = 'Ñ' then 'ñ' else c

def pyLower (s : String) : String := String.mk (s.data.map pyLowerChar)

/-- Python `str.upper()`, ASCII (language codes `es`/`en`/`nl` only). -/
def pyUpperChar (c : Char) : Char :=
  if 'a' ≤ c ∧ c ≤ 'z' then Char.ofNat (c.toNat - 32) else c

def pyUpper (s : String) : String := String.mk (s.data.map pyUpperChar)

/-- Maximal runs of word characters in a character list (the segments a
`\b…\b` pattern can match inside). -/
def wordRuns (cs : List Char) : List (List Char) :=
  (cs.splitOnP (fun c => ¬ isWordChar c)).filter (· ≠ [])

/-- `str.split()` with no separator: maximal runs of non-whitespace. -/
def pySplitWs (s : String) : List (List Char) :=
  (s.data.splitOnP isPySpace).filter (· ≠ [])

/-- Token count of `text.split()` as used by the orchestrator. -/
def countTokens (s : String) : Nat := (pySplitWs s).length

/-! ## Data model

The `transqa.models` package is not part of the provided sources; the
issue and result records are modelled from the spec (§3 data model):
`Issue` with type/severity enums, `AnalysisStats`, `PageResult`.  The
`TextBlock`, `LanguageDetectionResult` and `ExtractionResult` records
are translated from `core/interfaces.py`. -/

/-- Modelled from the spec: severity enum of `transqa.models.issue`
(missing from src/), ordered `info < warning < error < critical`. -/
inductive Severity where
  | info
  | warning
  | error
  | critical
deriving DecidableEq, Repr

/-- Modelled from the spec: `str(severity)` keys used by the stats
computation ("critical", "error", "warning", "info"). -/
def severityKey : Severity → String
  | .info => "info"
  | .warning => "warning"
  | .error => "error"
  | .critical => "critical"

/-- Modelled from the spec: issue-type enum of `transqa.models.issue`
(missing from src/). -/
inductive IssueType where
  | language_leak
  | grammar
  | spelling
  | style
  | placeholder
  | punctuation
  | capitalization
  | consistency
deriving DecidableEq, Repr

/-- `str(issue.type)` keys used by the stats computation. -/
def issueTypeKey : IssueType → String
  | .language_leak => "language_leak"
  | .grammar => "grammar"
  | .spelling => "spelling"
  | .style => "style"
  | .placeholder => "placeholder"
  | .punctuation => "punctuation"
  | .capitalization => "capitalization"
  | .consistency => "consistency"

/-- Modelled from the spec: the `Issue` record of `transqa.models.issue`
(missing from src/), with the fields the core reads and writes.
`source_verifier` models the `_source_verifier` attribute the composite
verifier tags issues with. -/
structure Issue where
  type : IssueType
  severity : Severity
  message : String
  suggestion : Option String := none
  snippet : String := ""
  xpath : String := "/"
  offset_start : Int := 0
  offset_end : Int := 0
  confidence : ℚ := 1
  rule_id : Option String := none
  target_lang : String := ""
  detected_lang : Option String := none
  detected_lang_confidence : Option ℚ := none
  context : Option String := none
  source_url : Option String := none
  source_verifier : Option String := none
deriving DecidableEq, Repr

/-- `TextBlock` from `core/interfaces.py`. -/
structure TextBlock where
  text : String
  xpath : String
  tag_name : Option String := none
  block_type : String := "text"
  offset_start : Int := 0
  offset_end : Int := 0
deriving DecidableEq, Repr

/-- `LanguageDetectionResult` from `core/interfaces.py`. -/
structure LanguageDetectionResult where
  detected_language : String
  confidence : ℚ
  alternative_languages : List (String × ℚ) := []
  method : String := "unknown"
deriving DecidableEq, Repr

/-- `ExtractionResult` from `core/interfaces.py`. -/
structure ExtractionResult where
  blocks : List TextBlock
  raw_text : String
  title : Option String := none
  meta_description : Option String := none
  declared_language : Option String := none
  success : Bool := true
  error_message : Option String := none
deriving DecidableEq, Repr

/-- Modelled from the spec: the aggregate statistics record
(`transqa.models.result.AnalysisStats`, missing from src/); fields as
produced by `TransQAAnalyzer._calculate_stats`. -/
structure AnalysisStats where
  total_tokens : Nat
  total_blocks : Nat
  language_distribution : List (String × ℚ)
  issues_by_type : List (String × Nat)
  issues_by_severity : List (String × Nat)
  overall_score : ℚ
  language_purity_score : ℚ
deriving DecidableEq, Repr

/-- Modelled from the spec: one URL's outcome
(`transqa.models.result.PageResult`, missing from src/); the fields the
orchestrator populates that the claims observe. -/
structure PageResult where
  url : String
  target_lang : String
  issues : List Issue := []
  stats : Option AnalysisStats := none
deriving DecidableEq, Repr

/-- Python exceptions surfaced by the embedded components.  The
constructors mirror the exception taxonomy of `core/interfaces.py`
plus the builtin `NameError` and `TimeoutError`. -/
inductive PyErr where
  | fetchErr (msg : String)
  | extractionErr (msg : String)
  | langDetectionErr (msg : String)
  | verificationErr (msg : String)
  | timeoutErr (msg : String)
  | nameErr (name : String)
  | otherErr (msg : String)
deriving DecidableEq, Repr

/-! ## Generic regex scanners

The source uses `re.findall` / `re.sub` / `re.finditer` with a fixed set
of patterns.  Each scan is modelled by a left-to-right pass: at each
position a match attempt is made (`none` = no match here, advance one
character); on a match the scan continues after the matched span, as
Python does for non-overlapping matches.  The `Bool` argument carries
whether the previous character is a word character (for `\b`).  Fuel is
the text length: every step consumes at least one character. -/

/-- `p` is a literal prefix of `cs`; returns the remainder. -/
def stripChars : List Char → List Char → Option (List Char)
  | [], cs => some cs
  | _ :: _, [] => none
  | p :: ps, c :: cs => if c = p then stripChars ps cs else none

/-- `cs` ends with the literal `suf`. -/
def listEndsWith (cs suf : List Char) : Bool :=
  (stripChars suf.reverse cs.reverse).isSome

/-- Count non-overlapping matches.  `tryM prevW cs` returns the
remainder after the match and the word-character status of the last
matched character. -/
def scanCount (tryM : Bool → List Char → Option (List Char × Bool)) :
    Nat → Bool → List Char → Nat
  | 0, _, _ => 0
  | _ + 1, _, [] => 0
  | fuel + 1, prevW, c :: rest =>
    match tryM prevW (c :: rest) with
    | some (rem, pw) => 1 + scanCount tryM fuel pw rem
    | none => scanCount tryM fuel (isWordChar c) rest

/-- Rewrite non-overlapping matches (`re.sub`).  `tryM prevW cs` returns
the replacement, the remainder and the word-character status of the last
matched character of the original text. -/
def scanRewrite (tryM : Bool → List Char → Option (List Char × List Char × Bool)) :
    Nat → Bool → List Char → List Char
  | 0, _, cs => cs
  | _ + 1, _, [] => []
  | fuel + 1, prevW, c :: rest =>
    match tryM prevW (c :: rest) with
    | some (out, rem, pw) => out ++ scanRewrite tryM fuel pw rem
    | none => c :: scanRewrite tryM fuel (isWordChar c) rest

/-- Whether any match exists (`re.search`). -/
def scanFound (tryM : Bool → List Char → Option (List Char × Bool)) :
    Nat → Bool → List Char → Bool
  | 0, _, _ => false
  | _ + 1, _, [] => false
  | fuel + 1, prevW, c :: rest =>
    match tryM prevW (c :: rest) with
    | some _ => true
    | none => scanFound tryM fuel (isWordChar c) rest

/-- Collect matches with their start offsets (`re.finditer`). -/
def scanMatches (tryM : Bool → List Char → Option (List Char × List Char × Bool)) :
    Nat → Bool → Nat → List Char → List (Nat × List Char)
  | 0, _, _, _ => []
  | _ + 1, _, _, [] => []
  | fuel + 1, prevW, pos, c :: rest =>
    match tryM prevW (c :: rest) with
    | some (m, rem, pw) => (pos, m) :: scanMatches tryM fuel pw (pos + m.length) rem
    | none => scanMatches tryM fuel (isWordChar c) (pos + 1) rest

/-! ## HeuristicVerifier: language patterns and tokenization
(`core/verification/heuristic_verifier.py`) -/

/-- `LANGUAGE_PATTERNS['es']['chars']`: regex class `[ñáéíóúüÑÁÉÍÓÚÜ¿¡]`. -/
def esCharClass (c : Char) : Bool :=
  ['ñ', 'á', 'é', 'í', 'ó', 'ú', 'ü', 'Ñ', 'Á', 'É', 'Í', 'Ó', 'Ú', 'Ü', '¿', '¡'].contains c

/-- `LANGUAGE_PATTERNS['nl']['chars']`: class of `[ëïöüÿ]`. -/
def nlCharClass (c : Char) : Bool := ['ë', 'ï', 'ö', 'ü', 'ÿ'].contains c

/-- `findall` count for `[ëïöüÿ]|ij` (left-to-right, non-overlapping). -/
def countNlChars : List Char → Nat
  | [] => 0
  | [c] => if nlCharClass c then 1 else 0
  | c :: c2 :: rest2 =>
    if nlCharClass c then 1 + countNlChars (c2 :: rest2)
    else if c = 'i' ∧ c2 = 'j' then 1 + countNlChars rest2
    else countNlChars (c2 :: rest2)

/-- `findall` count for the per-language character pattern on raw text. -/
def charMatchCount (lang : String) (cs : List Char) : Nat :=
  if lang = "es" then cs.countP esCharClass
  else if lang = "en" then cs.countP isAsciiLetter
  else if lang = "nl" then countNlChars cs
  else 0

/-- `LANGUAGE_PATTERNS[lang]['words']` stopword sets. -/
def langStopwords (lang : String) : List String :=
  if lang = "es" then
    ["el", "la", "de", "que", "y", "en", "un", "es", "se", "no", "te", "lo", "con",
     "para", "una", "del", "todo", "le", "da", "su", "por", "son", "pero", "esto",
     "ya", "muy", "hacer", "como", "fue", "ser", "han", "cuando", "hasta", "más", "desde"]
  else if lang = "en" then
    ["the", "be", "to", "of", "and", "a", "in", "that", "have", "it", "for", "not",
     "on", "with", "he", "as", "you", "do", "at", "this", "but", "his", "by", "from",
     "they", "she", "or", "an", "will", "my", "one", "all", "would", "there", "their"]
  else if lang = "nl" then
    ["de", "het", "een", "en", "van", "te", "dat", "die", "in", "is", "hij", "niet",
     "zijn", "op", "aan", "met", "als", "voor", "had", "er", "maar", "om", "hem",
     "dan", "zou", "nu", "wel", "nog", "worden", "bij", "onder", "tegen"]
  else []

/-- Match attempt for an article pattern `\b(?:a1|a2|…)\s+\w+` at the
current position: first article (in alternation order) that is a literal
prefix followed by at least one space and at least one word character;
`\s+` and `\w+` are greedy. -/
def tryArticleArm : List (List Char) → List Char → Option (List Char)
  | [], _ => none
  | a :: as, cs =>
    match stripChars a cs with
    | some r =>
      let sp := r.takeWhile isPySpace
      if sp.isEmpty then tryArticleArm as cs
      else
        let r2 := r.drop sp.length
        let w := r2.takeWhile isWordChar
        if w.isEmpty then tryArticleArm as cs else some (r2.drop w.length)
    | none => tryArticleArm as cs

def tryArticle (arts : List (List Char)) (prevW : Bool) (cs : List Char) :
    Option (List Char × Bool) :=
  if prevW then none else (tryArticleArm arts cs).map (fun rem => (rem, true))

/-- `findall` count for `\b(?:a1|a2|…)\s+\w+`. -/
def countArticleMatches (arts : List (List Char)) (cs : List Char) : Nat :=
  scanCount (tryArticle arts) cs.length false cs

/-- `findall` count for `\b\w+(?:s1|s2|…)\b`: since the suffixes are word
characters and the match is boundary-delimited, the matches are exactly
the maximal word runs that end in one of the suffixes and are strictly
longer than it. -/
def countSuffixMatches (sufs : List (List Char)) (cs : List Char) : Nat :=
  (wordRuns cs).countP (fun w => sufs.any (fun s => s.length < w.length ∧ listEndsWith w s))

/-- `findall` count for `\bij\b`: maximal word runs equal to `ij`. -/
def countIjWord (cs : List Char) : Nat :=
  (wordRuns cs).countP (· = ['i', 'j'])

/-- Summed `findall` counts of `LANGUAGE_PATTERNS[lang]['patterns']`. -/
def patternMatchCount (lang : String) (cs : List Char) : Nat :=
  if lang = "es" then
    countArticleMatches [['e','l'], ['l','a'], ['l','o','s'], ['l','a','s']] cs +
      countSuffixMatches [['i','ó','n'], ['a','d','o'], ['i','d','a'], ['m','e','n','t','e']] cs
  else if lang = "en" then
    countArticleMatches [['t','h','e'], ['a'], ['a','n']] cs +
      countSuffixMatches [['i','n','g'], ['e','d'], ['l','y'], ['t','i','o','n']] cs
  else if lang = "nl" then
    countArticleMatches [['d','e'], ['h','e','t']] cs + countIjWord cs +
      countSuffixMatches [['l','i','j','k'], ['h','e','i','d'], ['t','i','e']] cs
  else 0

/-! False-positive filter: `FALSE_POSITIVE_PATTERNS` applied in order by
`re.sub(pattern, ' ', text)`.  The first, second and fifth patterns are
boundary-delimited word patterns, so they match exactly maximal word
runs with the respective property. -/

def isAsciiUpper (c : Char) : Bool := 'A' ≤ c && c ≤ 'Z'

/-- Replace every maximal word run satisfying `p` by `rep`. -/
def replaceWordRuns (p : List Char → Bool) (rep : List Char) : Nat → List Char → List Char
  | 0, cs => cs
  | _ + 1, [] => []
  | fuel + 1, c :: rest =>
    if isWordChar c then
      let run := c :: rest.takeWhile isWordChar
      let rem := rest.drop (run.length - 1)
      (if p run then rep else run) ++ replaceWordRuns p rep fuel rem
    else
      c :: replaceWordRuns p rep fuel rest

/-- `\b[A-Z]{2,}\b` as a run predicate (acronyms). -/
def isAcronymRun (r : List Char) : Bool := 2 ≤ r.length && r.all isAsciiUpper

/-- `\b\d+\b` as a run predicate (standalone numbers). -/
def isNumberRun (r : List Char) : Bool := r ≠ [] && r.all Char.isDigit

/-- `\b\w*[0-9]\w*\b` as a run predicate (terms with numbers). -/
def hasDigitRun (r : List Char) : Bool := r.any Char.isDigit

/-- `\b(?:API|JSON|XML|HTML|CSS|JS|SQL|HTTP)\b` as a run predicate. -/
def isTechTermRun (r : List Char) : Bool :=
  [['A','P','I'], ['J','S','O','N'], ['X','M','L'], ['H','T','M','L'],
   ['C','S','S'], ['J','S'], ['S','Q','L'], ['H','T','T','P']].contains r

/-- Match attempt for `\b(?:https?|www|\.com|\.org|\.net)\b`. -/
def tryWebToken (prevW : Bool) (cs : List Char) : Option (List Char × List Char × Bool) :=
  let trailOk : List Char → Bool := fun r =>
    match r with
    | [] => true
    | d :: _ => ¬ isWordChar d
  let tryWordLit : List Char → Option (List Char × List Char × Bool) := fun lit =>
    if prevW then none
    else
      match stripChars lit cs with
      | some r => if trailOk r then some (lit, r, true) else none
      | none => none
  let tryDotLit : List Char → Option (List Char × List Char × Bool) := fun lit =>
    if prevW then
      match stripChars lit cs with
      | some r => if trailOk r then some (lit, r, true) else none
      | none => none
    else none
  -- `https?`: greedy optional `s`, then the trailing boundary
  let tryHttp : Option (List Char × List Char × Bool) :=
    if prevW then none
    else
      match stripChars ['h','t','t','p'] cs with
      | some r =>
        (match r with
         | 's' :: r2 =>
           if trailOk r2 then some (['h','t','t','p','s'], r2, true)
           else if trailOk r then some (['h','t','t','p'], r, true) else none
         | _ => if trailOk r then some (['h','t','t','p'], r, true) else none)
      | none => none
  (tryHttp.orElse fun _ => (tryWordLit ['w','w','w']).orElse fun _ =>
    (tryDotLit ['.','c','o','m']).orElse fun _ =>
      (tryDotLit ['.','o','r','g']).orElse fun _ => tryDotLit ['.','n','e','t'])

/-- Match attempt for `\b[a-zA-Z]+@[a-zA-Z]+\.[a-zA-Z]+\b`. -/
def tryEmailToken (prevW : Bool) (cs : List Char) : Option (List Char × List Char × Bool) :=
  if prevW then none
  else
    let l1 := cs.takeWhile isAsciiLetter
    if l1.isEmpty then none
    else
      match cs.drop l1.length with
      | '@' :: r1 =>
        let l2 := r1.takeWhile isAsciiLetter
        if l2.isEmpty then none
        else
          match r1.drop l2.length with
          | '.' :: r2 =>
            let l3 := r2.takeWhile isAsciiLetter
            if l3.isEmpty then none
            else
              let rem := r2.drop l3.length
              match rem with
              | [] => some (l1 ++ '@' :: l2 ++ '.' :: l3, [], true)
              | d :: _ =>
                if isWordChar d then none else some (l1 ++ '@' :: l2 ++ '.' :: l3, rem, true)
          | _ => none
      | _ => none

/-- The five `FALSE_POSITIVE_PATTERNS` substitutions, in source order. -/
def falsePositiveFilter (cs : List Char) : List Char :=
  let s1 := replaceWordRuns isAcronymRun [' '] cs.length cs
  let s2 := replaceWordRuns hasDigitRun [' '] s1.length s1
  let s3 := scanRewrite (fun pw t => (tryWebToken pw t).map (fun (_, rem, b) => ([' '], rem, b)))
    s2.length false s2
  let s4 := scanRewrite (fun pw t => (tryEmailToken pw t).map (fun (_, rem, b) => ([' '], rem, b)))
    s3.length false s3
  replaceWordRuns isTechTermRun [' '] s4.length s4

/-- The letter class of the token regex
`\b[a-zA-ZáéíóúüñÁÉÍÓÚÜÑëïöüÿ]{2,}\b`. -/
def isLeakLetter (c : Char) : Bool :=
  isAsciiLetter c || accentedLower.contains c || accentedUpper.contains c

/-- `HeuristicVerifier._extract_words`: false-positive filter, then the
boundary-delimited letter-token regex, whose matches are exactly the
maximal word runs made of class letters with length at least 2. -/
def extractWords (text : String) : List String :=
  ((wordRuns (falsePositiveFilter text.data)).filter
    (fun w => 2 ≤ w.length ∧ w.all isLeakLetter)).map String.mk

/-! ## HeuristicVerifier: configuration and leak scoring -/

/-- Default whitelist of `HeuristicVerifier.__init__`. -/
def defaultWhitelist : List String :=
  ["email", "online", "website", "app", "software", "hardware",
   "login", "logout", "password", "username", "admin", "user",
   "click", "download", "upload", "submit", "cancel", "ok",
   "google", "microsoft", "apple", "facebook", "twitter",
   "blog", "podcast", "streaming", "wifi", "smartphone"]

/-- Configuration knobs of `BaseVerifier` / `HeuristicVerifier`, with the
source defaults. -/
structure HeuristicConfig where
  min_text_length : Nat := 3
  skip_urls : Bool := true
  skip_emails : Bool := true
  ignore_rules : List String := []
  enable_rules : List String := []
  severity_overrides : List (String × Severity) := []
  leak_threshold : ℚ := 2/25
  min_words_for_detection : Nat := 3
  check_capitalization : Bool := true
  whitelist : List String := defaultWhitelist
deriving Repr

/-- `severity_mapping` default of `BaseVerifier.__init__`, read through
`severity_mapping.get(str(issue_type), Severity.WARNING)`. -/
def defaultSeverityFor : IssueType → Severity
  | .grammar => .warning
  | .spelling => .error
  | .style => .info
  | .placeholder => .error
  | .language_leak => .error
  | .punctuation => .warning
  | .capitalization => .warning
  | .consistency => .warning

/-- `BaseVerifier._create_issue`. -/
def createIssue (t : IssueType) (message : String) (text : String)
    (start finish : Nat) (target : String) (suggestion : Option String := none)
    (ruleId : Option String := none) (conf : ℚ := 1)
    (context : Option TextBlock := none) : Issue :=
  let snippet :=
    if start < text.length ∧ finish ≤ text.length
    then String.mk ((text.data.drop start).take (finish - start))
    else text
  { type := t
    severity := defaultSeverityFor t
    message := message
    suggestion := suggestion
    target_lang := target
    snippet := snippet
    xpath := match context with | some b => b.xpath | none => "/"
    offset_start := (start : Int)
    offset_end := (finish : Int)
    rule_id := ruleId
    confidence := conf }

/-- The per-language combined score and evidence words of
`HeuristicVerifier._detect_language_leakage`: 0.3·character score +
0.5·stopword score + 0.2·pattern score. -/
def languageScoreEvidence (cfg : HeuristicConfig) (text : String)
    (words : List String) (lang : String) : ℚ × List String :=
  let cs := text.data
  let charScore : ℚ := (charMatchCount lang cs : ℚ) / (max cs.length 1 : ℚ)
  let matching := words.filter (fun w =>
    (langStopwords lang).contains (pyLower w) ∧ ¬ cfg.whitelist.contains (pyLower w))
  let wordScore : ℚ := (matching.length : ℚ) / (words.length : ℚ)
  let patScore : ℚ := (patternMatchCount lang cs : ℚ) / (max words.length 1 : ℚ)
  (charScore * (3/10) + wordScore * (1/2) + patScore * (1/5), matching)

/-- Convenience projection: the combined leak score of one language. -/
def leakScore (cfg : HeuristicConfig) (text : String) (words : List String)
    (lang : String) : ℚ :=
  (languageScoreEvidence cfg text words lang).1

/-- The issue message of `_detect_language_leakage`: up to five evidence
words, with a count of the rest. -/
def leakMessage (lang : String) (evidence : List String) : String :=
  if evidence.isEmpty then "Text appears to contain " ++ pyUpper lang ++ " content"
  else
    let sample := evidence.take 5
    let base := "Possible " ++ pyUpper lang ++ " words detected: " ++
      String.intercalate ", " sample
    if 5 < evidence.length then base ++ " (+" ++ toString (evidence.length - 5) ++ " more)"
    else base

/-- Supported languages, in the iteration order of the
`LANGUAGE_PATTERNS` dict. -/
def leakLangs : List String := ["es", "en", "nl"]

/-- The leak issue `_detect_language_leakage` emits for one language
over the threshold: `confidence = min(0.95, score·2)`, the message over
the evidence words, the detection details stored on the issue. -/
def leakIssueFor (cfg : HeuristicConfig) (text target lang : String) : Issue :=
  let score := leakScore cfg text (extractWords text) lang
  let evidence := (languageScoreEvidence cfg text (extractWords text) lang).2
  { createIssue .language_leak (leakMessage lang evidence) text 0
      text.length target
      (some ("Review content - expected " ++ pyUpper target ++ " text"))
      (some ("LANGUAGE_LEAK_" ++ pyUpper lang)) (min (19/20 : ℚ) (score * 2)) none with
    detected_lang := some lang
    detected_lang_confidence := some score }

/-- `HeuristicVerifier._detect_language_leakage`: skip unsupported
targets and texts with too few tokens; score every other supported
language (in `LANGUAGE_PATTERNS` order) and emit one issue per language
whose combined score reaches the threshold.  (The source computes the
score dict in a first loop and thresholds it in a second; both iterate
the languages in the same order, so the two loops fuse.) -/
def detectLanguageLeakage (cfg : HeuristicConfig) (text target : String) : List Issue :=
  if ¬ leakLangs.contains target then []
  else
    let words := extractWords text
    if words.length < cfg.min_words_for_detection then []
    else
      (leakLangs.filter (· ≠ target)).filterMap (fun lang =>
        if cfg.leak_threshold ≤ leakScore cfg text words lang then
          some (leakIssueFor cfg text target lang)
        else none)

/-! ## HeuristicVerifier: capitalization, punctuation and consistency
rules.  These feed `_check_impl`; no claim is about their output values,
but they are translated so `check` is the whole pipeline. -/

def isSentencePunct (c : Char) : Bool := c = '.' || c = '!' || c = '?'

/-- `re.split(r'[.!?]+\s*', text)`. -/
def sentenceSplit : Nat → List Char → List Char → List (List Char)
  | 0, acc, cs => [acc.reverse ++ cs]
  | _ + 1, acc, [] => [acc.reverse]
  | fuel + 1, acc, c :: rest =>
    if isSentencePunct c then
      let p := (c :: rest).takeWhile isSentencePunct
      let r1 := (c :: rest).drop p.length
      let s := r1.takeWhile isPySpace
      acc.reverse :: sentenceSplit fuel [] (r1.drop s.length)
    else sentenceSplit fuel (c :: acc) rest

/-- Lowercase letter for Python `str.islower` on the first character. -/
def isLowerLetter (c : Char) : Bool :=
  ('a' ≤ c && c ≤ 'z') || accentedLower.contains c

/-- Python `str.capitalize()`. -/
def pyCapitalize (s : String) : String :=
  match s.data with
  | [] => s
  | c :: rest => String.mk ((pyUpperChar c) :: rest.map pyLowerChar)

/-- `str.find(sub)`: index of the first occurrence, `none` for -1. -/
def findSub (cs sub : List Char) : Option Nat :=
  go cs.length 0 cs
where
  go : Nat → Nat → List Char → Option Nat
    | 0, pos, rem => if (stripChars sub rem).isSome then some pos else none
    | fuel + 1, pos, rem =>
      if (stripChars sub rem).isSome then some pos
      else
        match rem with
        | [] => none
        | _ :: rest => go fuel (pos + 1) rest

/-- Capitalization exceptions of `_is_capitalization_exception`. -/
def capExceptions (lang : String) : List String :=
  if lang = "es" then ["de", "del", "el", "la", "y", "o", "por", "para", "con", "en"]
  else if lang = "en" then
    ["a", "an", "the", "and", "or", "but", "for", "nor", "so", "yet", "in", "on", "at", "to", "of"]
  else if lang = "nl" then
    ["de", "het", "een", "en", "van", "in", "op", "aan", "met", "voor", "door"]
  else []

/-- A single quote character, kept out of string literals. -/
def sq : String := String.singleton (Char.ofNat 39)

/-- Match attempt for `\b[A-Z][A-Z\s]+[A-Z]\b` (greedy). -/
def tryCapsTitle (prevW : Bool) (cs : List Char) : Option (List Char × List Char × Bool) :=
  match cs with
  | [] => none
  | c :: rest =>
    if prevW ∨ ¬ isAsciiUpper c then none
    else
      let body := rest.takeWhile (fun x => isAsciiUpper x || isPySpace x)
      let fits : Nat → Bool := fun j =>
        isAsciiUpper (body.getD (j - 1) ' ') &&
          (match rest.drop j with
           | [] => true
           | d :: _ => ¬ isWordChar d)
      match (((List.range body.length).map (· + 1)).reverse).find? fits with
      | some j => some (c :: body.take j, rest.drop j, true)
      | none => none

/-- `HeuristicVerifier._check_capitalization_rules`. -/
def checkCapitalizationRules (text target : String) : List Issue :=
  let sentenceIssues :=
    (sentenceSplit text.data.length [] text.data).filterMap (fun sraw =>
      let s := pyStripList sraw
      if s.isEmpty then none
      else
        match pySplitWs (String.mk s) with
        | [] => none
        | fw :: _ =>
          let firstWord := String.mk fw
          if fw ≠ [] ∧ isLowerLetter (fw.getD 0 ' ') ∧
              ¬ (capExceptions target).contains (pyLower firstWord) then
            match findSub text.data s with
            | some pos =>
              some (createIssue .capitalization
                ("Sentence should start with capital letter: " ++ sq ++ firstWord ++ sq)
                text pos (pos + fw.length) target (some (pyCapitalize firstWord))
                (some "SENTENCE_CAPITALIZATION") (7/10))
            | none => none
          else none)
  let titleIssues :=
    if target = "en" then
      (scanMatches tryCapsTitle text.data.length false 0 text.data).filterMap
        (fun (pos, m) =>
          let ws := pySplitWs (String.mk m)
          if 1 < ws.length then
            let suggestion := String.intercalate " "
              ((pySplitWs (pyLower (String.mk m))).map (fun w => pyCapitalize (String.mk w)))
            some (createIssue .capitalization
              ("Consider title case instead of all caps: " ++ sq ++ String.mk m ++ sq)
              text pos (pos + m.length) target (some suggestion)
              (some "ALL_CAPS_TITLE") (2/5))
          else none)
    else []
  sentenceIssues ++ titleIssues

/-- Match attempt for `[.!?,:;][a-zA-Z]`. -/
def tryMissingSpace (_ : Bool) (cs : List Char) : Option (List Char × List Char × Bool) :=
  match cs with
  | c1 :: c2 :: rest =>
    if (c1 = '.' || c1 = '!' || c1 = '?' || c1 = ',' || c1 = ':' || c1 = ';') ∧
        isAsciiLetter c2 then
      some ([c1, c2], rest, isWordChar c2)
    else none
  | _ => none

def isEsUpper (c : Char) : Bool :=
  isAsciiUpper c || ['Á', 'É', 'Í', 'Ó', 'Ú', 'Ñ', 'Ü'].contains c

/-- Match attempt for `[^op]\s*[A-ZÁÉÍÓÚÑÜ][^.!?]*end` where `op` is the
opening mark and `end` the closing punctuation (the two Spanish
missing-opening-mark patterns). -/
def trySpanishMark (opening closing : Char) (_ : Bool) (cs : List Char) :
    Option (List Char × List Char × Bool) :=
  match cs with
  | [] => none
  | c :: rest =>
    if c = opening then none
    else
      let sp := rest.takeWhile isPySpace
      match rest.drop sp.length with
      | [] => none
      | u :: r2 =>
        if ¬ isEsUpper u then none
        else
          let body := r2.takeWhile (fun x => ¬ isSentencePunct x)
          match r2.drop body.length with
          | [] => none
          | e :: r3 =>
            if e = closing then
              some (c :: sp ++ u :: body ++ [e], r3, isWordChar e)
            else none

/-- `HeuristicVerifier._check_punctuation_rules`. -/
def checkPunctuationRules (text target : String) : List Issue :=
  let missingSpace :=
    (scanMatches tryMissingSpace text.data.length false 0 text.data).map
      (fun (pos, m) =>
        createIssue .punctuation
          ("Missing space after punctuation: " ++ sq ++ String.mk m ++ sq)
          text pos (pos + m.length) target
          (some (String.mk (m.take 1 ++ ' ' :: m.drop 1)))
          (some "MISSING_SPACE_AFTER_PUNCT") (4/5))
  let spanish :=
    if target = "es" then
      (scanMatches (trySpanishMark '¿' '?') text.data.length false 0 text.data).map
        (fun (pos, m) =>
          createIssue .punctuation "Spanish question missing opening ¿"
            text pos (pos + m.length) target
            (some "Add ¿ at the beginning of the question")
            (some "MISSING_SPANISH_QUESTION_MARK") (3/5)) ++
      (scanMatches (trySpanishMark '¡' '!') text.data.length false 0 text.data).map
        (fun (pos, m) =>
          createIssue .punctuation "Spanish exclamation missing opening ¡"
            text pos (pos + m.length) target
            (some "Add ¡ at the beginning of the exclamation")
            (some "MISSING_SPANISH_EXCLAMATION_MARK") (3/5))
    else []
  missingSpace ++ spanish

/-- `HeuristicVerifier._check_consistency_issues`.  The quotation-mark
check runs first (its character class holds only the two ASCII quotes,
so more than two distinct kinds never occur); then the heading check
reads the name `context`, which is not defined in that function, so
every call raises `NameError`. -/
def checkConsistencyIssues (text target : String) : Except PyErr (List Issue) :=
  let quotes := text.data.filter (fun c => c = '"' || c = Char.ofNat 39)
  let _ :=
    if 4 ≤ quotes.length ∧ 2 < quotes.dedup.length then
      [createIssue .consistency
        ("Inconsistent quotation marks: " ++
          String.intercalate ", " (quotes.dedup.map String.singleton))
        text 0 text.length target
        (some "Use consistent quotation mark style")
        (some "INCONSISTENT_QUOTES") (1/2)]
    else []
  Except.error (.nameErr "context")

/-- `HeuristicVerifier._check_impl`: leakage, capitalization,
punctuation, then the consistency check (which raises). -/
def heuristicCheckImpl (cfg : HeuristicConfig) (text target : String)
    (_ : Option TextBlock) : Except PyErr (List Issue) := do
  let leak := detectLanguageLeakage cfg text target
  let caps := if cfg.check_capitalization then checkCapitalizationRules text target else []
  let punct := checkPunctuationRules text target
  let cons ← checkConsistencyIssues text target
  return leak ++ caps ++ punct ++ cons

/-! ## BaseVerifier: preprocessing and `check`
(`core/verification/base.py`) -/

/-- Match attempt for `URL_PATTERN = https?://[^\s]+`. -/
def tryUrlToken (_ : Bool) (cs : List Char) : Option (List Char × Bool) :=
  let finish : List Char → Option (List Char × Bool) := fun r =>
    let run := r.takeWhile (fun x => ¬ isPySpace x)
    if run.isEmpty then none
    else some (r.drop run.length, isWordChar (run.getLastD ' '))
  match stripChars ['h','t','t','p','s',':','/','/'] cs with
  | some r => finish r
  | none =>
    match stripChars ['h','t','t','p',':','/','/'] cs with
    | some r => finish r
    | none => none

/-- `URL_PATTERN.sub('', text)` (match replaced by nothing). -/
def removeUrlMatches (cs : List Char) : List Char :=
  scanRewrite (fun pw t => (tryUrlToken pw t).map (fun (rem, b) => ([], rem, b)))
    cs.length false cs

/-- A maximal non-whitespace run matched by
`EMAIL_PATTERN = \S+@\S+\.\S+`: since the pattern is made of `\S`
tokens, a match is exactly a whole run holding `@` at index ≥ 1 and a
later `.` with at least one character between and after. -/
def emailishRun (r : List Char) : Bool :=
  (List.range r.length).any (fun a =>
    1 ≤ a ∧ r.getD a ' ' = '@' ∧
      (List.range r.length).any (fun d => a + 2 ≤ d ∧ d + 2 ≤ r.length ∧ r.getD d ' ' = '.'))

/-- Rewrite each maximal non-whitespace run, keeping the separators. -/
def mapNonspaceRuns (f : List Char → List Char) : Nat → List Char → List Char
  | 0, cs => cs
  | _ + 1, [] => []
  | fuel + 1, c :: rest =>
    if isPySpace c then c :: mapNonspaceRuns f fuel rest
    else
      let run := c :: rest.takeWhile (fun x => ¬ isPySpace x)
      let rem := rest.drop (run.length - 1)
      f run ++ mapNonspaceRuns f fuel rem

/-- `EMAIL_PATTERN.sub('', text)`. -/
def removeEmailMatches (cs : List Char) : List Char :=
  mapNonspaceRuns (fun r => if emailishRun r then [] else r) cs.length cs

/-- `BaseVerifier._preprocess_text`. -/
def verifierPreprocess (cfg : HeuristicConfig) (text : String) : String :=
  let processed := pyStrip text
  if processed.isEmpty then ""
  else if processed.length < cfg.min_text_length then ""
  else if cfg.skip_urls ∧ scanFound tryUrlToken processed.data.length false processed.data ∧
      (pyStripList (removeUrlMatches processed.data)).length < cfg.min_text_length then ""
  else if cfg.skip_emails ∧ (pySplitWs processed).any emailishRun ∧
      (pyStripList (removeEmailMatches processed.data)).length < cfg.min_text_length then ""
  else processed

/-- `BaseVerifier._should_include_issue`. -/
def shouldIncludeIssue (cfg : HeuristicConfig) (i : Issue) : Bool :=
  (match i.rule_id with
   | some r => ¬ cfg.ignore_rules.contains r
   | none => true) &&
  (match cfg.enable_rules, i.rule_id with
   | [], _ => true
   | _, some r => cfg.enable_rules.contains r
   | _, none => true)

/-- `BaseVerifier._get_effective_severity`. -/
def effectiveSeverity (cfg : HeuristicConfig) (i : Issue) : Severity :=
  match i.rule_id.bind (fun r => (cfg.severity_overrides.find? (·.1 = r)).map (·.2)) with
  | some s => s
  | none =>
    match (cfg.severity_overrides.find? (·.1 = issueTypeKey i.type)).map (·.2) with
    | some s => s
    | none => i.severity

/-- `BaseVerifier._extract_context`. -/
def extractContext (full : List Char) (start finish : Int) : String :=
  let n := full.length
  let cstart := (max 0 (start - 50)).toNat
  let cend := min n (max 0 (finish + 50)).toNat
  let core := (full.drop cstart).take (cend - cstart)
  let withPre := if 0 < cstart then "..." ++ String.mk core else String.mk core
  if cend < n then withPre ++ "..." else withPre

/-- The issue post-processing of `BaseVerifier.check` (rule filtering,
severity overrides, context attachment). -/
def baseCheckPost (cfg : HeuristicConfig) (origText : String)
    (context : Option TextBlock) (issues : List Issue) : List Issue :=
  issues.filterMap (fun i =>
    if shouldIncludeIssue cfg i then
      let i1 := { i with severity := effectiveSeverity cfg i }
      some (match context with
        | some b =>
          let i2 := { i1 with xpath := b.xpath }
          if (i2.context.getD "").isEmpty then
            { i2 with context := some (extractContext origText.data i2.offset_start i2.offset_end) }
          else i2
        | none => i1)
    else none)

/-- `HeuristicVerifier.check` (the inherited `BaseVerifier.check` with
the heuristic `_check_impl`).  The source has no exception handling
here, so a `NameError` from `_check_consistency_issues` propagates. -/
def heuristicCheck (cfg : HeuristicConfig) (text target : String)
    (context : Option TextBlock := none) : Except PyErr (List Issue) :=
  if text.isEmpty ∨ (pyStrip text).length < cfg.min_text_length then .ok []
  else
    let processed := verifierPreprocess cfg text
    if processed.isEmpty then .ok []
    else do
      let issues ← heuristicCheckImpl cfg processed target context
      return baseCheckPost cfg text context issues

/-! ## BaseLanguageDetector (`core/language/base.py`) -/

/-- `BaseLanguageDetector.SUPPORTED_LANGUAGES`. -/
def supportedLanguages : List String := ["es", "en", "nl"]

/-- Configuration knobs of `BaseLanguageDetector.__init__`, with the
source defaults. -/
structure DetectorConfig where
  min_confidence : ℚ := 1/2
  min_text_length : Nat := 20
  max_text_length : Nat := 10000
  normalize_text : Bool := true
  remove_urls : Bool := true
  remove_emails : Bool := true
  remove_numbers : Bool := false
  restrict_to_supported : Bool := true
deriving Repr

/-- `re.sub(r'\s+', ' ', s)`: collapse each whitespace run. -/
def collapseWs : Nat → List Char → List Char
  | 0, cs => cs
  | _ + 1, [] => []
  | fuel + 1, c :: rest =>
    if isPySpace c then ' ' :: collapseWs fuel (rest.dropWhile isPySpace)
    else c :: collapseWs fuel rest

/-- Match attempt for `www\.\S+`. -/
def tryWwwToken (_ : Bool) (cs : List Char) : Option (List Char × Bool) :=
  match stripChars ['w','w','w','.'] cs with
  | some r =>
    let run := r.takeWhile (fun x => ¬ isPySpace x)
    if run.isEmpty then none
    else some (r.drop run.length, isWordChar (run.getLastD ' '))
  | none => none

/-- `re.sub(r'www\.\S+', '', s)`. -/
def removeWwwMatches (cs : List Char) : List Char :=
  scanRewrite (fun pw t => (tryWwwToken pw t).map (fun (rem, b) => ([], rem, b)))
    cs.length false cs

/-- `BaseLanguageDetector._preprocess_text`. -/
def detectorPreprocess (cfg : DetectorConfig) (text : String) : String :=
  if text.isEmpty then ""
  else
    let p0 := text.data
    let p1 := if cfg.normalize_text then pyStripList (collapseWs p0.length p0) else p0
    let p2 := if cfg.remove_urls then removeWwwMatches (removeUrlMatches p1) else p1
    let p3 := if cfg.remove_emails then removeEmailMatches p2 else p2
    let p4 := if cfg.remove_numbers then replaceWordRuns isNumberRun [] p3.length p3 else p3
    let p5 := pyStripList (collapseWs p4.length p4)
    let p6 := if 0 < cfg.max_text_length ∧ cfg.max_text_length < p5.length
              then p5.take cfg.max_text_length else p5
    String.mk p6

/-- `BaseLanguageDetector.detect_block`, parametric in the
implementation hook `_detect_language_impl` (which may raise) and the
reporting `method` name.  Every detector built on the base class,
including the composite detector, goes through this function. -/
def detectBlock (impl : String → Except PyErr (String × ℚ × List (String × ℚ)))
    (cfg : DetectorConfig) (method : String) (text : String) : LanguageDetectionResult :=
  if text.isEmpty ∨ (pyStrip text).length < cfg.min_text_length then
    { detected_language := "unknown", confidence := 0, method := method }
  else
    let processed := detectorPreprocess cfg text
    if processed.isEmpty then
      { detected_language := "unknown", confidence := 0, method := method }
    else
      match impl processed with
      | .error _ => { detected_language := "unknown", confidence := 0, method := method }
      | .ok (lang0, conf0, alts0) =>
        let (lang1, conf1, alts1) :=
          if cfg.restrict_to_supported then
            let alts := alts0.filter (fun p => supportedLanguages.contains p.1)
            if ¬ supportedLanguages.contains lang0 ∧ ¬ alts.isEmpty then
              match alts with
              | (l, c) :: _ => (l, c, alts)
              | [] => (lang0, conf0, alts)
            else (lang0, conf0, alts)
          else (lang0, conf0, alts0)
        if conf1 < cfg.min_confidence then
          { detected_language := "unknown", confidence := 0,
            alternative_languages := alts1.take 3, method := method }
        else
          { detected_language := lang1, confidence := conf1,
            alternative_languages := alts1.take 3, method := method }

/-- Stable insertion step: `x` goes after every earlier element `y` with
`le y x`. -/
def stableInsert (le : α → α → Bool) (x : α) : List α → List α
  | [] => [x]
  | y :: ys => if le y x then y :: stableInsert le x ys else x :: y :: ys

/-- Python `list.sort(key=…)` is a stable sort; modelled as a stable
insertion sort over the Boolean total preorder `le`. -/
def pySortBy (le : α → α → Bool) (l : List α) : List α :=
  l.foldl (fun acc x => stableInsert le x acc) []

/-! ## CompositeLanguageDetector: weighted voting
(`core/language/composite_detector.py`) -/

/-- One entry of the `detector_results` list built by
`CompositeLanguageDetector._detect_language_impl` (a detector that did
not report `unknown`). -/
structure DetectorReport where
  detector : String
  language : String
  confidence : ℚ
  alternatives : List (String × ℚ) := []
deriving DecidableEq, Repr

/-- The per-language accumulator of `_weighted_voting`
(`score`, `weight`, `votes`), keyed by language in insertion order. -/
def updateLangScores (weights : List (String × ℚ))
    (acc : List (String × ℚ × ℚ × Nat)) (r : DetectorReport) :
    List (String × ℚ × ℚ × Nat) :=
  let weight := ((weights.find? (·.1 = r.detector)).map (·.2)).getD 1
  let ws := r.confidence * weight
  if acc.any (·.1 = r.language) then
    acc.map (fun e =>
      if e.1 = r.language then (e.1, e.2.1 + ws, e.2.2.1 + weight, e.2.2.2 + 1) else e)
  else acc ++ [(r.language, ws, weight, 1)]

/-- `CompositeLanguageDetector._weighted_voting`: per-language weighted
average confidence plus a consensus boost, highest score wins, the next
four scores become alternatives. -/
def weightedVoting (weights : List (String × ℚ)) (results : List DetectorReport) :
    String × ℚ × List (String × ℚ) :=
  let langScores := results.foldl (updateLangScores weights) []
  if langScores.isEmpty then ("unknown", 0, [])
  else
    let finalScores := langScores.filterMap (fun e =>
      let (lang, score, weight, votes) := e
      if 0 < weight then
        let avgConfidence := score / weight
        let consensusBoost := min ((votes : ℚ) / (results.length : ℚ)) 1 * (1/10)
        some (lang, min (avgConfidence + consensusBoost) 1)
      else none)
    let sorted := pySortBy (fun a b => decide (b.2 ≤ a.2)) finalScores
    match sorted with
    | [] => ("unknown", 0, [])
    | (primaryLang, primaryScore) :: rest => (primaryLang, primaryScore, rest.take 4)

/-! ## CompositeVerifier: deduplication and overlap merging
(`core/verification/composite_verifier.py`) -/

/-- A placeholder issue for the unreachable empty-group cases. -/
def emptyIssue : Issue :=
  { type := .grammar, severity := .warning, message := "" }

/-- `CompositeVerifier._get_verifier_priority`: the `verifier_priorities`
table, looked up with default 50; an untagged issue reads as the name
`Unknown`. -/
def verifierPriorities (name : String) : Nat :=
  if name = "LanguageToolVerifier" then 100
  else if name = "PlaceholderValidator" then 90
  else if name = "HeuristicVerifier" then 80
  else 50

def getVerifierPriority (i : Issue) : Nat :=
  match i.source_verifier with
  | some s => verifierPriorities s
  | none => verifierPriorities "Unknown"

/-- The grouping key of `_deduplicate_issues`:
`(offset_start, offset_end, type, message.lower())`. -/
def dedupKey (i : Issue) : Int × Int × IssueType × String :=
  (i.offset_start, i.offset_end, i.type, pyLower i.message)

/-- Dict-building fold of `_deduplicate_issues`: groups in first-key
insertion order, members in list order. -/
def addToGroups (gs : List ((Int × Int × IssueType × String) × List Issue)) (i : Issue) :
    List ((Int × Int × IssueType × String) × List Issue) :=
  let k := dedupKey i
  if gs.any (·.1 = k) then
    gs.map (fun g => if g.1 = k then (g.1, g.2 ++ [i]) else g)
  else gs ++ [(k, [i])]

def issueGroups (issues : List Issue) :
    List ((Int × Int × IssueType × String) × List Issue) :=
  issues.foldl addToGroups []

/-- The sort key of Python `max(group, key=…)` in `_deduplicate_issues`:
`(confidence, verifier_priority)`, compared lexicographically. -/
def issueRank (i : Issue) : ℚ × Nat := (i.confidence, getVerifierPriority i)

def rankLtB (a b : ℚ × Nat) : Bool :=
  a.1 < b.1 || (a.1 = b.1 && a.2 < b.2)

/-- Python `max(…, key=key)` semantics: the first element whose key is
not exceeded by any later element. -/
def pyMaxIssueBy (lt : Issue → Issue → Bool) : List Issue → Issue
  | [] => emptyIssue
  | x :: xs => xs.foldl (fun b y => if lt b y then y else b) x

/-- Python truthiness of an optional string. -/
def truthyStr : Option String → Option String
  | some s => if s.isEmpty then none else some s
  | none => none

/-- One step of the suggestion set built in `_deduplicate_issues`: a
dropped duplicate contributes its truthy suggestion when it differs from
the best issue's suggestion and is not yet collected. -/
def sugAdd (bsug : Option String) (acc : List String) (o : Issue) : List String :=
  match truthyStr o.suggestion with
  | some s => if o.suggestion ≠ bsug ∧ ¬ acc.contains s then acc ++ [s] else acc
  | none => acc

/-- The suggestion set built in `_deduplicate_issues` for a group with
more than one member: the best issue's suggestion plus the differing
suggestions of the dropped duplicates.  The set is modelled as a
first-insertion-ordered duplicate-free list (Python set iteration order
is unspecified). -/
def collectSuggestions (best : Issue) (others : List Issue) : List String :=
  let init := match truthyStr best.suggestion with
    | some s => [s]
    | none => []
  others.foldl (sugAdd best.suggestion) init

/-- Processing of one duplicate group. -/
def dedupOne (g : List Issue) : Issue :=
  match g with
  | [] => emptyIssue
  | [i] => i
  | _ =>
    let best := pyMaxIssueBy (fun b y => rankLtB (issueRank b) (issueRank y)) g
    let others := g.filter (· ≠ best)
    if others.isEmpty then best
    else
      let sugs := collectSuggestions best others
      if 1 < sugs.length then { best with suggestion := some (String.intercalate "; " sugs) }
      else best

/-- `CompositeVerifier._deduplicate_issues`. -/
def deduplicateIssues (issues : List Issue) : List Issue :=
  if issues.isEmpty then issues
  else (issueGroups issues).map (fun g => dedupOne g.2)

/-- The sort of `_merge_overlapping_issues`:
`key=lambda x: (x.offset_start, x.offset_end)`, stable. -/
def sortIssuesByOffset (issues : List Issue) : List Issue :=
  pySortBy (fun a b =>
    decide (a.offset_start < b.offset_start ∨
      (a.offset_start = b.offset_start ∧ a.offset_end ≤ b.offset_end))) issues

/-- The grouping condition of `_merge_overlapping_issues`, between an
incoming issue and the last issue of the current group. -/
def overlapCond (lastIssue i : Issue) : Bool :=
  i.offset_start ≤ lastIssue.offset_end && i.type = lastIssue.type &&
    (i.offset_start - lastIssue.offset_start).natAbs < 50

/-- The accumulation loop of `_merge_overlapping_issues`, producing the
consecutive groups it merges. -/
def overlapChunks : List Issue → List Issue → List (List Issue)
  | cg, [] => [cg]
  | cg, i :: rest =>
    match cg.getLast? with
    | none => overlapChunks [i] rest
    | some lastIssue =>
      if overlapCond lastIssue i then overlapChunks (cg ++ [i]) rest
      else cg :: overlapChunks [i] rest

/-- One step of the message set of `_merge_issue_group` (a Python set,
modelled in first-occurrence order). -/
def msgAdd (acc : List String) (i : Issue) : List String :=
  if acc.contains i.message then acc else acc ++ [i.message]

/-- One step of the suggestion set of `_merge_issue_group`: only truthy
suggestions enter the set. -/
def sugAddAll (acc : List String) (i : Issue) : List String :=
  match truthyStr i.suggestion with
  | some s => if acc.contains s then acc else acc ++ [s]
  | none => acc

/-- `CompositeVerifier._merge_issue_group`: fields seeded from the
highest-confidence member, span widened to the whole group, distinct
messages and suggestions semicolon-joined (sets modelled as
first-occurrence-ordered duplicate-free lists). -/
def mergeIssueGroup (g : List Issue) : Issue :=
  match g with
  | [] => emptyIssue
  | [i] => i
  | x :: _ =>
    let base := pyMaxIssueBy (fun b y => b.confidence < y.confidence) g
    let minStart := (g.map (·.offset_start)).foldl min x.offset_start
    let maxEnd := (g.map (·.offset_end)).foldl max x.offset_end
    let msgs := g.foldl msgAdd []
    let sugs := g.foldl sugAddAll []
    { base with
      offset_start := minStart
      offset_end := maxEnd
      message := if 1 < msgs.length
        then "Multiple issues: " ++ String.intercalate "; " msgs
        else base.message
      suggestion := if sugs.isEmpty then base.suggestion
        else some (String.intercalate "; " sugs) }

/-- `CompositeVerifier._merge_overlapping_issues`. -/
def mergeOverlappingIssues (issues : List Issue) : List Issue :=
  if issues.isEmpty then issues
  else (overlapChunks [] (sortIssuesByOffset issues)).map mergeIssueGroup

/-! ## TransQAAnalyzer (`core/analyzer.py`) -/

/-- Bump a counter in an insertion-ordered dict. -/
def bumpCount (d : List (String × Nat)) (k : String) (n : Nat) : List (String × Nat) :=
  if d.any (·.1 = k) then d.map (fun e => if e.1 = k then (e.1, e.2 + n) else e)
  else d ++ [(k, n)]

/-- The issue-counting dicts of `_calculate_stats`. -/
def countsBy (f : Issue → String) (issues : List Issue) : List (String × Nat) :=
  issues.foldl (fun d i => bumpCount d (f i) 1) []

/-- `dict.get(k, 0)`. -/
def getCount (d : List (String × Nat)) (k : String) : Nat :=
  (((d.find? (·.1 = k)).map (·.2)).getD 0)

/-- `TransQAAnalyzer._calculate_stats` (the wall-clock durations and
byte sizes it also stores are not modelled). -/
def calculateStats (blocks : List TextBlock) (issues : List Issue)
    (languageDistribution : List (String × Nat)) (totalTokens : Nat)
    (targetLang : String) : AnalysisStats :=
  let langPercentages :=
    if 0 < totalTokens then
      languageDistribution.map (fun e => (e.1, ((e.2 : ℚ) / (totalTokens : ℚ)) * 100))
    else []
  let issuesByType := countsBy (fun i => issueTypeKey i.type) issues
  let issuesBySeverity := countsBy (fun i => severityKey i.severity) issues
  let criticalCount := getCount issuesBySeverity "critical"
  let errorCount := getCount issuesBySeverity "error"
  let warningCount := getCount issuesBySeverity "warning"
  let penalty : ℚ :=
    (criticalCount : ℚ) * (1/2) + (errorCount : ℚ) * (1/5) + (warningCount : ℚ) * (1/20)
  let overallScore : ℚ := max 0 (1 - min (penalty / ((max 1 blocks.length : Nat) : ℚ)) 1)
  let targetPct := ((langPercentages.find? (·.1 = targetLang)).map (·.2)).getD 0
  let purity := if 0 < targetPct then targetPct / 100 else 0
  { total_tokens := totalTokens
    total_blocks := blocks.length
    language_distribution := langPercentages
    issues_by_type := issuesByType
    issues_by_severity := issuesBySeverity
    overall_score := overallScore
    language_purity_score := purity }

/-- The collaborators and clock of one `analyze_url` run.  `fetch`,
`extract`, `detect` and `verify` are the black-box components
(`Except.error` = the call raised); `timeoutAfter = some t` means the
elapsed time exceeds the ceiling from the `t`-th timeout checkpoint on
(`_check_timeout` call sites, counted in execution order); the strings
render the elapsed/limit seconds in messages. -/
structure AnalyzeEnv where
  fetch : Except PyErr (String × String)
  extract : String → Except PyErr ExtractionResult
  detect : String → Except PyErr LanguageDetectionResult
  verify : String → String → TextBlock → Except PyErr (List Issue)
  timeoutAfter : Option Nat := none
  elapsedStr : String := "0.0"
  limitStr : String := "60"

/-- `TransQAAnalyzer._check_timeout` at the `k`-th checkpoint. -/
def checkTimeout (env : AnalyzeEnv) (k : Nat) (url : String) : Except PyErr Unit :=
  match env.timeoutAfter with
  | some t =>
    if t ≤ k then
      .error (.timeoutErr ("analysis of " ++ url ++ " timed out after " ++
        env.elapsedStr ++ "s (limit: " ++ env.limitStr ++ "s)"))
    else .ok ()
  | none => .ok ()

/-- The mutable locals of the per-block loop of `analyze_url`
(`all_issues`, `language_distribution`, `total_tokens`). -/
structure BlockLoopState where
  issues : List Issue := []
  langDist : List (String × Nat) := []
  totalTokens : Nat := 0
deriving DecidableEq, Repr

/-- The direct language-leak issue created in the per-block loop when
the detected language differs from the target. -/
def directLeakIssue (url target : String) (b : TextBlock) (lang : String) (conf : ℚ) : Issue :=
  { type := .language_leak
    severity := .error
    message := "Text appears to be in " ++ pyUpper lang ++ " instead of " ++ pyUpper target
    target_lang := target
    snippet := if 100 < b.text.length then String.mk (b.text.data.take 100) ++ "..." else b.text
    xpath := b.xpath
    offset_start := b.offset_start
    offset_end := b.offset_end
    confidence := conf
    detected_lang := some lang
    detected_lang_confidence := some conf
    source_url := some url }

/-- The per-block loop of `analyze_url` (step 3).  `k` counts timeout
checkpoints, `i` is the block index; the timeout check at every tenth
block sits outside the per-block `try`, while errors raised by
`detect`/`verify` are caught per block and the loop continues. -/
def processBlocks (env : AnalyzeEnv) (url target : String) :
    Nat → Nat → List TextBlock → BlockLoopState → Except PyErr BlockLoopState
  | _, _, [], st => .ok st
  | k, i, b :: rest, st => do
    let k' ← if i % 10 = 0 then do
        checkTimeout env k url
        pure (k + 1)
      else pure k
    if (pyStrip b.text).isEmpty then processBlocks env url target k' (i + 1) rest st
    else
      let tokens := countTokens b.text
      let st1 := { st with totalTokens := st.totalTokens + tokens }
      match env.detect b.text with
      | .error _ => processBlocks env url target k' (i + 1) rest st1
      | .ok lr =>
        let lang := lr.detected_language
        let st2 := { st1 with langDist := bumpCount st1.langDist lang tokens }
        if lang = "unknown" then processBlocks env url target k' (i + 1) rest st2
        else
          let st3 :=
            if lang ≠ target then
              { st2 with issues := st2.issues ++ [directLeakIssue url target b lang lr.confidence] }
            else st2
          if lang = target ∨ lr.confidence < 7/10 then
            if b.text.length < 1000 then
              match env.verify b.text target b with
              | .error _ => processBlocks env url target k' (i + 1) rest st3
              | .ok vis =>
                let stamped := vis.map (fun iss =>
                  { iss with source_url := some url, xpath := b.xpath })
                processBlocks env url target k' (i + 1) rest
                  { st3 with issues := st3.issues ++ stamped }
            else processBlocks env url target k' (i + 1) rest st3
          else processBlocks env url target k' (i + 1) rest st3

/-- The `try` body of `analyze_url`: fetch, extract, per-block loop,
statistics; checkpoints 0, 1, 2 are the three explicit
`_check_timeout` calls, the loop starts at checkpoint 3. -/
def analyzeBody (env : AnalyzeEnv) (url target : String) :
    Except PyErr (List Issue × AnalysisStats) := do
  checkTimeout env 0 url
  let (content, _title) ← env.fetch
  checkTimeout env 1 url
  let er ← env.extract content
  if ¬ er.success then
    Except.error (.extractionErr (er.error_message.getD "Text extraction failed"))
  else do
    checkTimeout env 2 url
    let st ← processBlocks env url target 3 0 er.blocks {}
    let stats := calculateStats er.blocks st.issues st.langDist st.totalTokens target
    pure (st.issues, stats)

/-- The synthetic critical issue built by the `except` clauses of
`analyze_url`, with the message format of the matching handler. -/
def analysisErrorIssue (e : PyErr) (elapsedStr url target : String) : Issue :=
  let msg := match e with
    | .timeoutErr m => "Analysis timed out after " ++ elapsedStr ++ "s: " ++ m
    | .fetchErr m => "Failed to fetch content: " ++ m
    | .extractionErr m => "Analysis failed: " ++ m
    | .langDetectionErr m => "Analysis failed: " ++ m
    | .verificationErr m => "Analysis failed: " ++ m
    | .nameErr n => "Unexpected error after " ++ elapsedStr ++ "s: name " ++ n ++ " is not defined"
    | .otherErr m => "Unexpected error after " ++ elapsedStr ++ "s: " ++ m
  { type := .grammar
    severity := .critical
    message := msg
    target_lang := target
    snippet := ""
    xpath := "/"
    offset_start := 0
    offset_end := 0
    source_url := some url }

/-- `TransQAAnalyzer.analyze_url`: the caller always gets a
`PageResult`; every exception from the body is translated by the
`except` clauses into a single synthetic critical issue. -/
def analyzeUrl (env : AnalyzeEnv) (url target : String) : PageResult :=
  match analyzeBody env url target with
  | .ok (issues, stats) =>
    { url := url, target_lang := target, issues := issues, stats := some stats }
  | .error e =>
    { url := url, target_lang := target,
      issues := [analysisErrorIssue e env.elapsedStr url target], stats := none }

/-! # Theorems -/

/-- C9: for every text whose stripped length is below the configured
minimum detection length (default 20; this covers the empty string),
`detect_block` on any detector built on the base class returns
`detected_language = "unknown"` with confidence 0. -/
theorem detect_block_short_text_unknown
    (impl : String → Except PyErr (String × ℚ × List (String × ℚ)))
    (cfg : DetectorConfig) (method text : String)
    (h : (pyStrip text).length < cfg.min_text_length) :
    detectBlock impl cfg method text =
      { detected_language := "unknown", confidence := 0, method := method } := by
  unfold detectBlock
  simp [h]

theorem detect_block_short_text_unknown_witness :
    (pyStrip "").length < ({} : DetectorConfig).min_text_length ∧
      detectBlock (fun _ => .ok ("en", 1, [])) {} "LangIdDetector" "" =
        { detected_language := "unknown", confidence := 0, method := "LangIdDetector" } :=
  ⟨by decide,
   detect_block_short_text_unknown (fun _ => .ok ("en", 1, [])) {} "LangIdDetector" ""
     (by decide)⟩

/-- C10: every result of `detect_block` (for any implementation hook, so
in particular for the composite detector) carries at most 3 alternative
languages; the weighted voting strategy can compute 4 candidates, and
the base `detect_block` then truncates them to 3. -/
theorem detect_block_at_most_three_alternatives :
    (∀ (impl : String → Except PyErr (String × ℚ × List (String × ℚ)))
       (cfg : DetectorConfig) (method text : String),
       (detectBlock impl cfg method text).alternative_languages.length ≤ 3) ∧
    (weightedVoting []
        [{ detector := "D1", language := "es", confidence := 9/10 },
         { detector := "D2", language := "en", confidence := 4/5 },
         { detector := "D3", language := "nl", confidence := 7/10 },
         { detector := "D4", language := "fr", confidence := 3/5 },
         { detector := "D5", language := "it", confidence := 11/20 }]).2.2.length = 4 ∧
    (detectBlock
        (fun _ => .ok ("es", 23/25,
          [("en", 41/50), ("nl", 18/25), ("fr", 31/50), ("it", 57/100)]))
        { restrict_to_supported := false } "CompositeLanguageDetector"
        "abcdefghijklmnopqrstu").alternative_languages.length = 3 := by
  refine ⟨fun impl cfg method text => ?_, ?_, ?_⟩
  · unfold detectBlock
    dsimp only
    repeat' split
    all_goals simp [List.length_take]
  · norm_num +decide [weightedVoting, updateLangScores, pySortBy, stableInsert,
      List.filterMap_cons]
  · norm_num +decide [detectBlock, detectorPreprocess, collapseWs, pyStrip, pyStripList,
      removeUrlMatches, removeWwwMatches, removeEmailMatches, scanRewrite,
      tryUrlToken, tryWwwToken, stripChars, mapNonspaceRuns, emailishRun,
      isPySpace, isWordChar, isAsciiLetter, accentedLower, accentedUpper]

/-- C3 counterexample: with detector A reporting `es` at confidence 0.9
and weight 1.0 and detector B reporting `en` at confidence 0.6 and
weight 2.0, weighted voting does not pick `en`. -/
theorem weighted_voting_example_not_en :
    (weightedVoting [("A", 1), ("B", 2)]
      [{ detector := "A", language := "es", confidence := 9/10 },
       { detector := "B", language := "en", confidence := 3/5 }]).1 ≠ "en" := by
  norm_num +decide [weightedVoting, updateLangScores, pySortBy, stableInsert,
    List.filterMap_cons]

/-- C3 amended: weighted voting divides each language's summed
`confidence·weight` by its summed weight and adds a 0.05 consensus
boost, so detector A wins: `es` scores 0.9 + 0.05 = 0.95 against
`en` at 0.6 + 0.05 = 0.65, which becomes the alternative. -/
theorem weighted_voting_example_es_wins :
    weightedVoting [("A", 1), ("B", 2)]
      [{ detector := "A", language := "es", confidence := 9/10 },
       { detector := "B", language := "en", confidence := 3/5 }] =
      ("es", 19/20, [("en", 13/20)]) := by
  norm_num +decide [weightedVoting, updateLangScores, pySortBy, stableInsert,
    List.filterMap_cons]

/-! ### C5: overall-score sensitivity to one critical issue -/

section ScoreLemmas

variable {kp k : String} {n : Nat}

theorem getCount_cons (e : String × Nat) (d : List (String × Nat)) (k : String) :
    getCount (e :: d) k = if e.1 = k then e.2 else getCount d k := by
  by_cases h : e.1 = k
  · simp [getCount, List.find?_cons_of_pos, h]
  · simp [getCount, List.find?_cons_of_neg, h]

theorem getCount_map_ne (d : List (String × Nat)) (h : kp ≠ k) :
    getCount (d.map (fun e => if e.1 = kp then (e.1, e.2 + n) else e)) k = getCount d k := by
  induction d with
  | nil => rfl
  | cons e d ih =>
    by_cases he : e.1 = kp
    · rw [List.map_cons, if_pos he, getCount_cons, getCount_cons]
      have hek : ¬ e.1 = k := by rw [he]; exact h
      rw [if_neg hek, if_neg hek]
      exact ih
    · rw [List.map_cons, if_neg he, getCount_cons, getCount_cons]
      by_cases hk : e.1 = k
      · rw [if_pos hk, if_pos hk]
      · rw [if_neg hk, if_neg hk]
        exact ih

theorem getCount_mapBump (d : List (String × Nat))
    (h : d.any (·.1 = kp)) :
    getCount (d.map (fun e => if e.1 = kp then (e.1, e.2 + n) else e)) k =
      getCount d k + if kp = k then n else 0 := by
  induction d with
  | nil => simp at h
  | cons e d ih =>
    by_cases he : e.1 = kp
    · rw [List.map_cons, if_pos he, getCount_cons, getCount_cons]
      by_cases hk : e.1 = k
      · rw [if_pos hk, if_pos hk, if_pos (he.symm.trans hk)]
      · have hkp : kp ≠ k := fun hh => hk (he.trans hh)
        rw [if_neg hk, if_neg hk, getCount_map_ne d hkp, if_neg hkp, Nat.add_zero]
    · rw [List.map_cons, if_neg he, getCount_cons, getCount_cons]
      by_cases hk : e.1 = k
      · have hkp : kp ≠ k := fun hh => he (hk.trans hh.symm)
        rw [if_pos hk, if_pos hk, if_neg hkp, Nat.add_zero]
      · rw [if_neg hk, if_neg hk]
        apply ih
        simp only [List.any_cons, Bool.or_eq_true] at h
        rcases h with h | h
        · exact absurd (by simpa using h) he
        · exact h

theorem getCount_bumpCount (d : List (String × Nat)) (kp k : String) (n : Nat) :
    getCount (bumpCount d kp n) k = getCount d k + if kp = k then n else 0 := by
  unfold bumpCount
  by_cases h : d.any (·.1 = kp)
  · rw [if_pos h]
    exact getCount_mapBump d h
  · rw [if_neg h]
    induction d with
    | nil =>
      by_cases hk : kp = k
      · simp [getCount_cons, hk, getCount]
      · simp [getCount_cons, hk, getCount]
    | cons e d ih =>
      have hany : ¬ (d.any (·.1 = kp)) = true := by
        simp only [List.any_cons, Bool.or_eq_true] at h
        tauto
      have he : ¬ e.1 = kp := by
        simp only [List.any_cons, Bool.or_eq_true] at h
        intro hc
        exact h (Or.inl (by simpa using hc))
      by_cases hk : e.1 = k
      · have hkp : kp ≠ k := fun hh => he (hk.trans hh.symm)
        rw [List.cons_append, getCount_cons, getCount_cons, if_pos hk, if_pos hk,
          if_neg hkp, Nat.add_zero]
      · rw [List.cons_append, getCount_cons, getCount_cons, if_neg hk, if_neg hk]
        exact ih hany

theorem countsBy_snoc (f : Issue → String) (issues : List Issue) (c : Issue) :
    countsBy f (issues ++ [c]) = bumpCount (countsBy f issues) (f c) 1 := by
  simp [countsBy, List.foldl_append]

/-- The pure arithmetic of the score drop: with penalty `p ≥ 0` and
block normalizer `B ≥ 1`, raising the penalty by ½ moves
`max 0 (1 − min (p/B) 1)` to its value minus `½/B`, clamped at 0. -/
theorem score_drop (p B : ℚ) (hp : 0 ≤ p) (hB : 1 ≤ B) :
    max 0 (1 - min ((p + 1/2) / B) 1) =
      max 0 (max 0 (1 - min (p / B) 1) - (1/2) / B) := by
  have hB0 : 0 < B := lt_of_lt_of_le one_pos hB
  have hsplit : (p + 1/2) / B = p / B + (1/2) / B := add_div p (1/2) B
  have houter : max 0 (1 - min (p / B) 1) = 1 - min (p / B) 1 :=
    max_eq_right (by simp)
  rw [houter]
  rcases le_or_lt (p + 1/2) B with h1 | h1
  · have hpB : p / B ≤ 1 := by
      rw [div_le_one hB0]; linarith
    have hpB2 : (p + 1/2) / B ≤ 1 := by
      rw [div_le_one hB0]; linarith
    rw [min_eq_left hpB, min_eq_left hpB2, hsplit]
    congr 1
    ring
  · have hgt : 1 < (p + 1/2) / B := by
      rw [lt_div_iff₀ hB0]; linarith
    rw [min_eq_right (le_of_lt hgt)]
    have hsum : 1 < p / B + (1/2) / B := by rw [← hsplit]; exact hgt
    rcases le_or_lt p B with h2 | h2
    · have hpB : p / B ≤ 1 := by rw [div_le_one hB0]; linarith
      rw [min_eq_left hpB]
      have hneg : 1 - p / B - (1/2) / B ≤ 0 := by linarith
      rw [sub_self, max_eq_left (le_refl 0),
        max_eq_left (by linarith : 1 - p / B - (1/2) / B ≤ 0)]
    · have hpB : 1 ≤ p / B := by rw [le_div_iff₀ hB0]; linarith
      rw [min_eq_right hpB, sub_self, max_eq_left (le_refl 0)]
      have hx : (0 : ℚ) ≤ (1/2) / B := by positivity
      rw [max_eq_left (by linarith : (0 : ℚ) - (1/2) / B ≤ 0)]

end ScoreLemmas

/-- C5 counterexample: on a two-block page with no issues, adding one
critical issue moves `overall_score` from 1 to 3/4: the drop is 1/4,
not the critical penalty weight 0.5, and the score is not clamped at
0 — the penalty is normalized by the block count. -/
theorem overall_score_drop_not_half :
    (calculateStats
        [{ text := "uno", xpath := "/p[1]" }, { text := "dos", xpath := "/p[2]" }]
        [] [] 0 "es").overall_score = 1 ∧
    (calculateStats
        [{ text := "uno", xpath := "/p[1]" }, { text := "dos", xpath := "/p[2]" }]
        [{ type := .grammar, severity := .critical, message := "boom" }]
        [] 0 "es").overall_score = 3/4 ∧
    ((1 : ℚ) - 3/4 ≠ 1/2) ∧ ((3 : ℚ)/4 ≠ 0) := by
  refine ⟨?_, ?_, by norm_num, by norm_num⟩ <;>
    norm_num +decide [calculateStats, countsBy, bumpCount, getCount, severityKey,
      issueTypeKey]

/-- C5 amended: adding one critical issue (everything else fixed) moves
`overall_score` to `max 0 (previous − ½ / max 1 block_count)`: the drop
is the critical penalty weight 0.5 normalized by the block count
(so exactly 0.5 only for pages of at most one block), bounded below at
0; the decrease is strict whenever the previous score was positive. -/
theorem overall_score_critical_decrease (blocks : List TextBlock)
    (issues : List Issue) (dist : List (String × Nat)) (tokens : Nat)
    (target : String) (c : Issue) (hc : c.severity = .critical) :
    (calculateStats blocks (issues ++ [c]) dist tokens target).overall_score =
      max 0 ((calculateStats blocks issues dist tokens target).overall_score -
        (1/2) / ((max 1 blocks.length : Nat) : ℚ)) ∧
    (0 < (calculateStats blocks issues dist tokens target).overall_score →
      (calculateStats blocks (issues ++ [c]) dist tokens target).overall_score <
        (calculateStats blocks issues dist tokens target).overall_score) := by
  have hsev : severityKey c.severity = "critical" := by rw [hc]; rfl
  have hcrit : getCount (countsBy (fun i => severityKey i.severity) (issues ++ [c])) "critical" =
      getCount (countsBy (fun i => severityKey i.severity) issues) "critical" + 1 := by
    rw [countsBy_snoc, getCount_bumpCount, hsev, if_pos rfl]
  have herr : getCount (countsBy (fun i => severityKey i.severity) (issues ++ [c])) "error" =
      getCount (countsBy (fun i => severityKey i.severity) issues) "error" := by
    rw [countsBy_snoc, getCount_bumpCount, hsev]
    simp
  have hwarn : getCount (countsBy (fun i => severityKey i.severity) (issues ++ [c])) "warning" =
      getCount (countsBy (fun i => severityKey i.severity) issues) "warning" := by
    rw [countsBy_snoc, getCount_bumpCount, hsev]
    simp
  set cc := getCount (countsBy (fun i => severityKey i.severity) issues) "critical" with hcc
  set ec := getCount (countsBy (fun i => severityKey i.severity) issues) "error" with hec
  set wc := getCount (countsBy (fun i => severityKey i.severity) issues) "warning" with hwc
  have hB : (1 : ℚ) ≤ ((max 1 blocks.length : Nat) : ℚ) := by
    have : 1 ≤ max 1 blocks.length := le_max_left 1 blocks.length
    exact_mod_cast this
  have hB0 : (0 : ℚ) < ((max 1 blocks.length : Nat) : ℚ) := lt_of_lt_of_le one_pos hB
  have hp : (0 : ℚ) ≤ (cc : ℚ) * (1/2) + (ec : ℚ) * (1/5) + (wc : ℚ) * (1/20) := by
    positivity
  have hform : ∀ issues' : List Issue,
      (calculateStats blocks issues' dist tokens target).overall_score =
        max 0 (1 - min
          (((getCount (countsBy (fun i => severityKey i.severity) issues') "critical" : ℚ) *
              (1/2) +
            (getCount (countsBy (fun i => severityKey i.severity) issues') "error" : ℚ) *
              (1/5) +
            (getCount (countsBy (fun i => severityKey i.severity) issues') "warning" : ℚ) *
              (1/20)) / ((max 1 blocks.length : Nat) : ℚ)) 1) :=
    fun _ => rfl
  have harg : ((cc + 1 : Nat) : ℚ) * (1/2) + (ec : ℚ) * (1/5) + (wc : ℚ) * (1/20) =
      ((cc : ℚ) * (1/2) + (ec : ℚ) * (1/5) + (wc : ℚ) * (1/20)) + 1/2 := by
    push_cast
    ring
  have hmain :
      (calculateStats blocks (issues ++ [c]) dist tokens target).overall_score =
        max 0 ((calculateStats blocks issues dist tokens target).overall_score -
          (1/2) / ((max 1 blocks.length : Nat) : ℚ)) := by
    rw [hform (issues ++ [c]), hform issues, hcrit, herr, hwarn, ← hcc, ← hec, ← hwc,
      harg]
    exact score_drop _ _ hp hB
  refine ⟨hmain, fun hpos => ?_⟩
  rw [hmain]
  have hhalf : (0 : ℚ) < (1/2) / ((max 1 blocks.length : Nat) : ℚ) := by positivity
  exact max_lt hpos (by linarith)

theorem overall_score_critical_decrease_witness :
    ({ type := .grammar, severity := .critical, message := "boom" } : Issue).severity =
        .critical ∧
      (calculateStats [{ text := "uno", xpath := "/p[1]" }]
          ([] ++ [{ type := .grammar, severity := .critical, message := "boom" }])
          [] 0 "es").overall_score =
        max 0 ((calculateStats [{ text := "uno", xpath := "/p[1]" }] [] [] 0 "es").overall_score -
          (1/2) / ((max 1 [({ text := "uno", xpath := "/p[1]" } : TextBlock)].length : Nat) : ℚ)) :=
  ⟨rfl,
   (overall_score_critical_decrease [{ text := "uno", xpath := "/p[1]" }] [] [] 0 "es"
     { type := .grammar, severity := .critical, message := "boom" } rfl).1⟩

/-! ### C1: the verifier `check` contract -/

/-- C1 (code bug): `HeuristicVerifier.check` on ordinary text raises.
`_check_consistency_issues` reads the undefined name `context`
(heuristic_verifier.py line 289), so every call that reaches
`_check_impl` ends in a `NameError`, and `BaseVerifier.check` has no
handler around `_check_impl` — the contract "check never raises" is
broken by the code. -/
theorem heuristic_check_raises_name_error :
    heuristicCheck {} "Hello world test" "es" none =
      .error (.nameErr "context") := by
  rfl

/-! ### C2: analyze_url failure semantics -/

/-- C2 counterexample: a detector exception inside the per-block loop is
caught per block and simply skips the block, so the returned
`PageResult` carries no synthetic critical issue at all — the claim
that any caught exception of the loop leaves exactly one critical issue
fails. -/
theorem analyze_url_per_block_error_no_critical :
    (analyzeUrl
      { fetch := .ok ("<html></html>", "T")
        extract := fun _ => .ok
          { blocks := [{ text := "Hola mundo", xpath := "/p[1]" }], raw_text := "Hola mundo" }
        detect := fun _ => .error (.langDetectionErr "backend down")
        verify := fun _ _ _ => .ok [] } "http://example.test" "es").issues = [] ∧
    (({ fetch := .ok ("<html></html>", "T")
        extract := fun _ => .ok
          { blocks := [{ text := "Hola mundo", xpath := "/p[1]" }], raw_text := "Hola mundo" }
        detect := fun _ => .error (.langDetectionErr "backend down")
        verify := fun _ _ _ => .ok [] } : AnalyzeEnv).detect "Hola mundo" =
      .error (.langDetectionErr "backend down")) :=
  ⟨rfl, rfl⟩

/-- C2 amended: `analyze_url` always returns a `PageResult`; any
exception that escapes the body — a fetch or extraction failure, or the
timeout raised at the explicit checkpoints (which sit outside the
per-block `try`) — is caught and yields exactly one synthetic issue of
severity critical, whose message contains "timed out" in the timeout
case.  Exceptions raised by detection or verification of a single block
are caught per block and leave no synthetic issue. -/
theorem analyze_url_failure_single_critical (env : AnalyzeEnv) (url target : String)
    (e : PyErr) (h : analyzeBody env url target = .error e) :
    (analyzeUrl env url target).issues =
      [analysisErrorIssue e env.elapsedStr url target] ∧
    (analyzeUrl env url target).issues.length = 1 ∧
    (∀ i ∈ (analyzeUrl env url target).issues, i.severity = .critical) ∧
    (∀ m, e = .timeoutErr m → ∀ i ∈ (analyzeUrl env url target).issues,
      ∃ pre post : String, i.message = pre ++ "timed out" ++ post) := by
  have hres : analyzeUrl env url target =
      { url := url, target_lang := target,
        issues := [analysisErrorIssue e env.elapsedStr url target], stats := none } := by
    unfold analyzeUrl
    rw [h]
  rw [hres]
  refine ⟨rfl, rfl, ?_, ?_⟩
  · intro i hi
    rw [List.mem_singleton] at hi
    subst hi
    rfl
  · intro m hm i hi
    rw [List.mem_singleton] at hi
    subst hm
    subst hi
    refine ⟨"Analysis ", " after " ++ env.elapsedStr ++ "s: " ++ m, ?_⟩
    show "Analysis timed out after " ++ env.elapsedStr ++ "s: " ++ m = _
    apply String.ext
    simp [List.append_assoc]

theorem analyze_url_failure_single_critical_witness :
    (analyzeBody
        { fetch := .ok ("<html></html>", "T")
          extract := fun _ => .ok { blocks := [], raw_text := "" }
          detect := fun _ => .error (.langDetectionErr "x")
          verify := fun _ _ _ => .ok []
          timeoutAfter := some 0
          elapsedStr := "61.2" } "http://example.test" "es" =
        .error (.timeoutErr
          "analysis of http://example.test timed out after 61.2s (limit: 60s)")) ∧
      (∀ i ∈ (analyzeUrl
        { fetch := .ok ("<html></html>", "T")
          extract := fun _ => .ok { blocks := [], raw_text := "" }
          detect := fun _ => .error (.langDetectionErr "x")
          verify := fun _ _ _ => .ok []
          timeoutAfter := some 0
          elapsedStr := "61.2" } "http://example.test" "es").issues,
        ∃ pre post : String, i.message = pre ++ "timed out" ++ post) := by
  refine ⟨rfl, ?_⟩
  exact (analyze_url_failure_single_critical
    { fetch := .ok ("<html></html>", "T")
      extract := fun _ => .ok { blocks := [], raw_text := "" }
      detect := fun _ => .error (.langDetectionErr "x")
      verify := fun _ _ _ => .ok []
      timeoutAfter := some 0
      elapsedStr := "61.2" } "http://example.test" "es"
    (.timeoutErr "analysis of http://example.test timed out after 61.2s (limit: 60s)")
    rfl).2.2.2 _ rfl

/-! ### C4: which blocks the verifier runs on -/

/-- C4 counterexample: a non-empty block whose detected language is
`unknown` (confidence 0, hence below 0.7) and whose text is within the
size cap is skipped entirely — the per-block loop `continue`s on
`unknown` before the verification branch, so the verifier's issues
never reach the result. -/
theorem analyze_url_unknown_block_skips_verifier :
    (analyzeUrl
      { fetch := .ok ("<html></html>", "T")
        extract := fun _ => .ok
          { blocks := [{ text := "Texto de prueba corto", xpath := "/p[1]" }],
            raw_text := "Texto de prueba corto" }
        detect := fun _ => .ok { detected_language := "unknown", confidence := 0 }
        verify := fun _ _ _ => .ok
          [{ type := .spelling, severity := .error, message := "typo" }] }
      "http://example.test" "es").issues = [] ∧
    (({ fetch := .ok ("<html></html>", "T")
        extract := fun _ => .ok
          { blocks := [{ text := "Texto de prueba corto", xpath := "/p[1]" }],
            raw_text := "Texto de prueba corto" }
        detect := fun _ => .ok { detected_language := "unknown", confidence := 0 }
        verify := fun _ _ _ => .ok
          [{ type := .spelling, severity := .error, message := "typo" }] } :
        AnalyzeEnv).detect "Texto de prueba corto" =
      .ok { detected_language := "unknown", confidence := 0 }) ∧
    ((0 : ℚ) < 7/10) ∧ ("Texto de prueba corto".length < 1000) ∧
    ¬ (pyStrip "Texto de prueba corto").isEmpty :=
  ⟨rfl, rfl, by norm_num, by decide, by decide⟩

/-- C4 amended: in the per-block loop, for every non-empty block whose
detected language is not `unknown` and equals the target or was
detected with confidence below 0.7, and whose text is under the
1000-character verification cap, the verifier runs on the block and its
issues — each stamped with the page url and the block xpath — are
appended (after the direct leak issue when the language differs from
the target); blocks detected as `unknown` are skipped before
verification. -/
theorem process_block_runs_verifier_on_known_language
    (env : AnalyzeEnv) (url target : String) (k i : Nat) (b : TextBlock)
    (rest : List TextBlock) (st : BlockLoopState) (lr : LanguageDetectionResult)
    (vis : List Issue)
    (hto : i % 10 = 0 → checkTimeout env k url = .ok ())
    (hblank : ¬ (pyStrip b.text).isEmpty)
    (hdet : env.detect b.text = .ok lr)
    (hunk : lr.detected_language ≠ "unknown")
    (hcond : lr.detected_language = target ∨ lr.confidence < 7/10)
    (hsize : b.text.length < 1000)
    (hver : env.verify b.text target b = .ok vis) :
    processBlocks env url target k i (b :: rest) st =
      processBlocks env url target (if i % 10 = 0 then k + 1 else k) (i + 1) rest
        { issues :=
            (if lr.detected_language ≠ target then
              st.issues ++ [directLeakIssue url target b lr.detected_language lr.confidence]
            else st.issues) ++
              vis.map (fun iss => { iss with source_url := some url, xpath := b.xpath })
          langDist := bumpCount st.langDist lr.detected_language (countTokens b.text)
          totalTokens := st.totalTokens + countTokens b.text } := by
  conv_lhs => rw [processBlocks]
  simp only [Bool.not_eq_true] at hblank
  by_cases hi : i % 10 = 0
  · simp only [hi, if_pos rfl, hto hi, hblank, Bool.false_eq_true, if_false, hdet,
      bind, Except.bind, pure, Except.pure]
    rw [if_neg hunk, if_pos hcond, if_pos hsize, hver]
    by_cases ht : lr.detected_language = target
    · simp [ht, hi]
    · simp [ht, hi]
  · simp only [hi, if_neg hi, hblank, Bool.false_eq_true, if_false, hdet,
      bind, Except.bind, pure, Except.pure]
    rw [if_neg hunk, if_pos hcond, if_pos hsize, hver]
    by_cases ht : lr.detected_language = target
    · simp [ht, hi]
    · simp [ht, hi]

theorem process_block_runs_verifier_witness :
    (({ fetch := .ok ("", "")
        extract := fun _ => .ok { blocks := [], raw_text := "" }
        detect := fun _ => .ok { detected_language := "en", confidence := 1/2 }
        verify := fun _ _ _ => .ok
          [{ type := .spelling, severity := .error, message := "typo" }] } :
        AnalyzeEnv).detect "Short sample block" =
      .ok { detected_language := "en", confidence := 1/2 }) ∧
    processBlocks
        { fetch := .ok ("", "")
          extract := fun _ => .ok { blocks := [], raw_text := "" }
          detect := fun _ => .ok { detected_language := "en", confidence := 1/2 }
          verify := fun _ _ _ => .ok
            [{ type := .spelling, severity := .error, message := "typo" }] }
        "http://example.test" "es" 3 0
        [{ text := "Short sample block", xpath := "/p[1]" }] {} =
      processBlocks
        { fetch := .ok ("", "")
          extract := fun _ => .ok { blocks := [], raw_text := "" }
          detect := fun _ => .ok { detected_language := "en", confidence := 1/2 }
          verify := fun _ _ _ => .ok
            [{ type := .spelling, severity := .error, message := "typo" }] }
        "http://example.test" "es" (if 0 % 10 = 0 then 3 + 1 else 3) (0 + 1) []
        { issues :=
            [directLeakIssue "http://example.test" "es"
              { text := "Short sample block", xpath := "/p[1]" } "en" (1/2),
             { type := .spelling, severity := .error, message := "typo",
               xpath := "/p[1]", source_url := some "http://example.test" }]
          langDist := [("en", 3)]
          totalTokens := 3 } := by
  refine ⟨rfl, ?_⟩
  exact process_block_runs_verifier_on_known_language _ "http://example.test" "es" 3 0
    { text := "Short sample block", xpath := "/p[1]" } [] {}
    { detected_language := "en", confidence := 1/2 }
    [{ type := .spelling, severity := .error, message := "typo" }]
    (fun _ => rfl) (by decide) rfl (by decide) (Or.inr (by norm_num)) (by decide) rfl

/-! ### C6: the heuristic leak detector threshold -/

theorem detect_leak_expand (cfg : HeuristicConfig) (text target : String)
    (langs : List String)
    (hc : leakLangs.contains target = true)
    (hf : leakLangs.filter (· ≠ target) = langs)
    (hw : ¬ (extractWords text).length < cfg.min_words_for_detection) :
    detectLanguageLeakage cfg text target =
      langs.filterMap (fun lang =>
        if cfg.leak_threshold ≤ leakScore cfg text (extractWords text) lang then
          some (leakIssueFor cfg text target lang)
        else none) := by
  simp only [detectLanguageLeakage, hc, not_true, if_false, hw, hf]

/-- C6: for any supported target and any other supported language `L`,
leak detection is skipped entirely below `min_words_for_detection`
tokens; with enough tokens it emits a `language_leak` issue for `L`
exactly when the combined score (0.3·characters + 0.5·stopwords +
0.2·patterns) reaches `leak_threshold`, with
`confidence = min(0.95, 2·score)` and a message listing the first five
evidence words (at most 5). -/
theorem heuristic_leak_detector_iff (cfg : HeuristicConfig) (text target L : String)
    (hT : target ∈ leakLangs) (hL : L ∈ leakLangs) (hne : L ≠ target) :
    ((extractWords text).length < cfg.min_words_for_detection →
      detectLanguageLeakage cfg text target = []) ∧
    (((languageScoreEvidence cfg text (extractWords text) L).2.take 5).length ≤ 5) ∧
    (cfg.min_words_for_detection ≤ (extractWords text).length →
      ((∃ i ∈ detectLanguageLeakage cfg text target, i.detected_lang = some L) ↔
        cfg.leak_threshold ≤ leakScore cfg text (extractWords text) L) ∧
      (∀ i ∈ detectLanguageLeakage cfg text target, i.detected_lang = some L →
        i.confidence =
          min (19/20 : ℚ) (leakScore cfg text (extractWords text) L * 2) ∧
        i.message = leakMessage L (languageScoreEvidence cfg text (extractWords text) L).2)) := by
  have hT2 : target ∈ ["es", "en", "nl"] := hT
  have hL2 : L ∈ ["es", "en", "nl"] := hL
  refine ⟨fun hlen => ?_, ?_, fun hlen => ?_⟩
  · fin_cases hT2 <;>
      · simp only [detectLanguageLeakage]
        rw [if_neg (by decide), if_pos hlen]
  · simp only [List.length_take]
    omega
  · fin_cases hT2 <;> fin_cases hL2
    case _ => exact absurd rfl hne
    case _ =>
      rw [detect_leak_expand cfg text "es" ["en", "nl"] (by decide) (by decide)
        (not_lt.mpr hlen)]
      have hd : ("nl" : String) ≠ "en" := by decide
      rcases le_or_lt cfg.leak_threshold (leakScore cfg text (extractWords text) "en")
          with h1 | h1 <;>
        rcases le_or_lt cfg.leak_threshold (leakScore cfg text (extractWords text) "nl")
          with h2 | h2
      · simp only [List.filterMap_cons, h1, h2, if_true, List.filterMap_nil]
        simp [leakIssueFor, createIssue, hd]
      · simp only [List.filterMap_cons, h1, h2.not_le, if_true, if_false,
          List.filterMap_nil]
        simp [leakIssueFor, createIssue, hd]
      · simp only [List.filterMap_cons, h1.not_le, h2, if_true, if_false,
          List.filterMap_nil]
        simp [leakIssueFor, createIssue, hd]
      · simp only [List.filterMap_cons, h1.not_le, h2.not_le, if_false,
          List.filterMap_nil]
        simp [leakIssueFor, createIssue, hd]
    case _ =>
      rw [detect_leak_expand cfg text "es" ["en", "nl"] (by decide) (by decide)
        (not_lt.mpr hlen)]
      have hd : ("en" : String) ≠ "nl" := by decide
      rcases le_or_lt cfg.leak_threshold (leakScore cfg text (extractWords text) "en")
          with h1 | h1 <;>
        rcases le_or_lt cfg.leak_threshold (leakScore cfg text (extractWords text) "nl")
          with h2 | h2
      · simp only [List.filterMap_cons, h1, h2, if_true, List.filterMap_nil]
        simp [leakIssueFor, createIssue, hd]
      · simp only [List.filterMap_cons, h1, h2.not_le, if_true, if_false,
          List.filterMap_nil]
        simp [leakIssueFor, createIssue, hd]
      · simp only [List.filterMap_cons, h1.not_le, h2, if_true, if_false,
          List.filterMap_nil]
        simp [leakIssueFor, createIssue, hd]
      · simp only [List.filterMap_cons, h1.not_le, h2.not_le, if_false,
          List.filterMap_nil]
        simp [leakIssueFor, createIssue, hd]
    case _ =>
      rw [detect_leak_expand cfg text "en" ["es", "nl"] (by decide) (by decide)
        (not_lt.mpr hlen)]
      have hd : ("nl" : String) ≠ "es" := by decide
      rcases le_or_lt cfg.leak_threshold (leakScore cfg text (extractWords text) "es")
          with h1 | h1 <;>
        rcases le_or_lt cfg.leak_threshold (leakScore cfg text (extractWords text) "nl")
          with h2 | h2
      · simp only [List.filterMap_cons, h1, h2, if_true, List.filterMap_nil]
        simp [leakIssueFor, createIssue, hd]
      · simp only [List.filterMap_cons, h1, h2.not_le, if_true, if_false,
          List.filterMap_nil]
        simp [leakIssueFor, createIssue, hd]
      · simp only [List.filterMap_cons, h1.not_le, h2, if_true, if_false,
          List.filterMap_nil]
        simp [leakIssueFor, createIssue, hd]
      · simp only [List.filterMap_cons, h1.not_le, h2.not_le, if_false,
          List.filterMap_nil]
        simp [leakIssueFor, createIssue, hd]
    case _ => exact absurd rfl hne
    case _ =>
      rw [detect_leak_expand cfg text "en" ["es", "nl"] (by decide) (by decide)
        (not_lt.mpr hlen)]
      have hd : ("es" : String) ≠ "nl" := by decide
      rcases le_or_lt cfg.leak_threshold (leakScore cfg text (extractWords text) "es")
          with h1 | h1 <;>
        rcases le_or_lt cfg.leak_threshold (leakScore cfg text (extractWords text) "nl")
          with h2 | h2
      · simp only [List.filterMap_cons, h1, h2, if_true, List.filterMap_nil]
        simp [leakIssueFor, createIssue, hd]
      · simp only [List.filterMap_cons, h1, h2.not_le, if_true, if_false,
          List.filterMap_nil]
        simp [leakIssueFor, createIssue, hd]
      · simp only [List.filterMap_cons, h1.not_le, h2, if_true, if_false,
          List.filterMap_nil]
        simp [leakIssueFor, createIssue, hd]
      · simp only [List.filterMap_cons, h1.not_le, h2.not_le, if_false,
          List.filterMap_nil]
        simp [leakIssueFor, createIssue, hd]
    case _ =>
      rw [detect_leak_expand cfg text "nl" ["es", "en"] (by decide) (by decide)
        (not_lt.mpr hlen)]
      have hd : ("en" : String) ≠ "es" := by decide
      rcases le_or_lt cfg.leak_threshold (leakScore cfg text (extractWords text) "es")
          with h1 | h1 <;>
        rcases le_or_lt cfg.leak_threshold (leakScore cfg text (extractWords text) "en")
          with h2 | h2
      · simp only [List.filterMap_cons, h1, h2, if_true, List.filterMap_nil]
        simp [leakIssueFor, createIssue, hd]
      · simp only [List.filterMap_cons, h1, h2.not_le, if_true, if_false,
          List.filterMap_nil]
        simp [leakIssueFor, createIssue, hd]
      · simp only [List.filterMap_cons, h1.not_le, h2, if_true, if_false,
          List.filterMap_nil]
        simp [leakIssueFor, createIssue, hd]
      · simp only [List.filterMap_cons, h1.not_le, h2.not_le, if_false,
          List.filterMap_nil]
        simp [leakIssueFor, createIssue, hd]
    case _ =>
      rw [detect_leak_expand cfg text "nl" ["es", "en"] (by decide) (by decide)
        (not_lt.mpr hlen)]
      have hd : ("es" : String) ≠ "en" := by decide
      rcases le_or_lt cfg.leak_threshold (leakScore cfg text (extractWords text) "es")
          with h1 | h1 <;>
        rcases le_or_lt cfg.leak_threshold (leakScore cfg text (extractWords text) "en")
          with h2 | h2
      · simp only [List.filterMap_cons, h1, h2, if_true, List.filterMap_nil]
        simp [leakIssueFor, createIssue, hd]
      · simp only [List.filterMap_cons, h1, h2.not_le, if_true, if_false,
          List.filterMap_nil]
        simp [leakIssueFor, createIssue, hd]
      · simp only [List.filterMap_cons, h1.not_le, h2, if_true, if_false,
          List.filterMap_nil]
        simp [leakIssueFor, createIssue, hd]
      · simp only [List.filterMap_cons, h1.not_le, h2.not_le, if_false,
          List.filterMap_nil]
        simp [leakIssueFor, createIssue, hd]
    case _ => exact absurd rfl hne

theorem heuristic_leak_detector_iff_witness :
    ("es" ∈ leakLangs ∧ "en" ∈ leakLangs ∧ ("en" : String) ≠ "es") ∧
    (((extractWords "the cat and the dog run fast").length <
        ({} : HeuristicConfig).min_words_for_detection →
      detectLanguageLeakage {} "the cat and the dog run fast" "es" = []) ∧
     (((languageScoreEvidence {} "the cat and the dog run fast"
         (extractWords "the cat and the dog run fast") "en").2.take 5).length ≤ 5) ∧
     (({} : HeuristicConfig).min_words_for_detection ≤
        (extractWords "the cat and the dog run fast").length →
      ((∃ i ∈ detectLanguageLeakage {} "the cat and the dog run fast" "es",
          i.detected_lang = some "en") ↔
        ({} : HeuristicConfig).leak_threshold ≤
          leakScore {} "the cat and the dog run fast"
            (extractWords "the cat and the dog run fast") "en") ∧
      (∀ i ∈ detectLanguageLeakage {} "the cat and the dog run fast" "es",
        i.detected_lang = some "en" →
        i.confidence = min (19/20 : ℚ)
          (leakScore {} "the cat and the dog run fast"
            (extractWords "the cat and the dog run fast") "en" * 2) ∧
        i.message = leakMessage "en"
          (languageScoreEvidence {} "the cat and the dog run fast"
            (extractWords "the cat and the dog run fast") "en").2))) :=
  ⟨⟨by decide, by decide, by decide⟩,
   heuristic_leak_detector_iff {} "the cat and the dog run fast" "es" "en"
     (by decide) (by decide) (by decide)⟩

/-! ### C7: composite-verifier deduplication.
Supporting lemmas about the `(confidence, priority)` order, the Python
`max` fold, the suggestion set, and the grouping dict. -/

theorem rankLtB_irrefl (a : ℚ × Nat) : rankLtB a a = false := by
  simp [rankLtB]

theorem rankLtB_trans {a b c : ℚ × Nat} (h1 : rankLtB a b = true)
    (h2 : rankLtB b c = true) : rankLtB a c = true := by
  simp only [rankLtB, Bool.or_eq_true, decide_eq_true_eq, Bool.and_eq_true] at *
  rcases h1 with h1 | ⟨h1e, h1n⟩ <;> rcases h2 with h2 | ⟨h2e, h2n⟩
  · exact Or.inl (h1.trans h2)
  · exact Or.inl (h2e ▸ h1)
  · exact Or.inl (h1e ▸ h2)
  · exact Or.inr ⟨h1e.trans h2e, h1n.trans h2n⟩

theorem rankLtB_not_total {a b : ℚ × Nat} (h : rankLtB a b = false) :
    rankLtB b a = true ∨ a = b := by
  unfold rankLtB at *
  rcases lt_trichotomy a.1 b.1 with h1 | h1 | h1
  · simp [h1] at h
  · rcases lt_trichotomy a.2 b.2 with h2 | h2 | h2
    · simp [h1, h2] at h
    · exact Or.inr (Prod.ext h1 h2)
    · exact Or.inl (by simp [h1.symm, h2])
  · exact Or.inl (by simp [h1])

/-- The keep-or-replace fold of Python `max` stays inside the list. -/
theorem pyMaxIssueBy_fold_mem (lt : Issue → Issue → Bool) (l : List Issue) (b : Issue) :
    l.foldl (fun acc y => if lt acc y then y else acc) b ∈ b :: l := by
  induction l generalizing b with
  | nil => simp
  | cons y ys ih =>
    simp only [List.foldl_cons]
    rcases List.mem_cons.mp (ih (if lt b y then y else b)) with h | h
    · rw [h]
      by_cases hc : lt b y = true
      · rw [if_pos hc]
        exact List.mem_cons_of_mem _ (List.mem_cons_self _ _)
      · rw [if_neg hc]
        exact List.mem_cons_self _ _
    · exact List.mem_cons_of_mem _ (List.mem_cons_of_mem _ h)

theorem pyMaxIssueBy_mem (lt : Issue → Issue → Bool) (g : List Issue) (h : g ≠ []) :
    pyMaxIssueBy lt g ∈ g := by
  cases g with
  | nil => exact absurd rfl h
  | cons x xs => exact pyMaxIssueBy_fold_mem lt xs x

/-- The rank comparison the dedup `max` uses. -/
def rankLt (a y : Issue) : Bool := rankLtB (issueRank a) (issueRank y)

/-- The Python-`max` fold result is never ranked below the seed or any
list element. -/
theorem pyMaxIssueBy_fold_max (l : List Issue) (b : Issue) :
    (rankLt (l.foldl (fun acc y => if rankLt acc y then y else acc) b) b = false) ∧
    (∀ y ∈ l, rankLt (l.foldl (fun acc y => if rankLt acc y then y else acc) b) y
      = false) := by
  induction l generalizing b with
  | nil => exact ⟨rankLtB_irrefl _, by simp⟩
  | cons y ys ih =>
    simp only [List.foldl_cons]
    by_cases hc : rankLt b y = true
    · rw [if_pos hc]
      obtain ⟨ih1, ih2⟩ := ih y
      have hgeY : rankLt (ys.foldl (fun acc y => if rankLt acc y then y else acc) y) y
          = false := ih1
      have hgeB : rankLt (ys.foldl (fun acc y => if rankLt acc y then y else acc) y) b
          = false := by
        by_contra hlt
        rw [Bool.not_eq_false] at hlt
        exact absurd (rankLtB_trans hlt hc) (by simpa [rankLt] using hgeY)
      refine ⟨hgeB, fun z hz => ?_⟩
      rcases List.mem_cons.mp hz with hz | hz
      · exact hz ▸ hgeY
      · exact ih2 _ hz
    · rw [Bool.not_eq_true] at hc
      rw [hc]
      simp only [Bool.false_eq_true, if_false]
      obtain ⟨ih1, ih2⟩ := ih b
      have hgeY : rankLt (ys.foldl (fun acc y => if rankLt acc y then y else acc) b) y
          = false := by
        by_contra hlt
        rw [Bool.not_eq_false] at hlt
        rcases rankLtB_not_total hc with hyb | heq
        · exact absurd (rankLtB_trans hlt hyb) (by simpa [rankLt] using ih1)
        · unfold rankLt at hlt
          rw [show issueRank y = issueRank b from heq.symm] at hlt
          exact absurd hlt (by simpa [rankLt] using ih1)
      refine ⟨ih1, fun z hz => ?_⟩
      rcases List.mem_cons.mp hz with hz | hz
      · exact hz ▸ hgeY
      · exact ih2 _ hz

theorem pyMaxIssueBy_max (g : List Issue) :
    ∀ i ∈ g, rankLt (pyMaxIssueBy rankLt g) i = false := by
  cases g with
  | nil => simp
  | cons x xs =>
    intro i hi
    obtain ⟨h1, h2⟩ := pyMaxIssueBy_fold_max xs x
    rcases List.mem_cons.mp hi with hi | hi
    · exact hi ▸ h1
    · exact h2 _ hi

theorem sugAdd_none {o : Issue} (b : Option String) (acc : List String)
    (h : truthyStr o.suggestion = none) : sugAdd b acc o = acc := by
  unfold sugAdd
  rw [h]

theorem sugAdd_some {o : Issue} {s0 : String} (b : Option String) (acc : List String)
    (h : truthyStr o.suggestion = some s0) :
    sugAdd b acc o =
      if o.suggestion ≠ b ∧ ¬ acc.contains s0 then acc ++ [s0] else acc := by
  unfold sugAdd
  rw [h]

/-- Joint induction for the suggestion-collecting fold of
`_deduplicate_issues`: starting from a duplicate-free accumulator it
stays duplicate-free and collects exactly the accumulator plus the
truthy suggestions of `others` differing from the best suggestion. -/
theorem sugAdd_foldl_spec (bsug : Option String) (others : List Issue) :
    ∀ acc : List String, acc.Nodup →
      (others.foldl (sugAdd bsug) acc).Nodup ∧
      (∀ s, s ∈ others.foldl (sugAdd bsug) acc ↔
        s ∈ acc ∨ ∃ o ∈ others, o.suggestion ≠ bsug ∧
          truthyStr o.suggestion = some s) := by
  induction others with
  | nil =>
    intro acc hacc
    exact ⟨hacc, by simp⟩
  | cons o os ih =>
    intro acc hacc
    simp only [List.foldl_cons]
    rcases htr : truthyStr o.suggestion with _ | s0
    · rw [sugAdd_none bsug acc htr]
      obtain ⟨h1, h2⟩ := ih acc hacc
      refine ⟨h1, fun s => ?_⟩
      rw [h2 s]
      constructor
      · rintro (h | ⟨a, ha, hc⟩)
        · exact Or.inl h
        · exact Or.inr ⟨a, List.mem_cons_of_mem _ ha, hc⟩
      · rintro (h | ⟨a, ha, hne, hsome⟩)
        · exact Or.inl h
        · rcases List.mem_cons.mp ha with rfl | ha
          · rw [htr] at hsome
            cases hsome
          · exact Or.inr ⟨a, ha, hne, hsome⟩
    · rw [sugAdd_some bsug acc htr]
      by_cases hcond : o.suggestion ≠ bsug ∧ ¬ acc.contains s0
      · rw [if_pos hcond]
        have hs0 : s0 ∉ acc := by simpa using hcond.2
        have hacc2 : (acc ++ [s0]).Nodup := by
          rw [List.nodup_append]
          refine ⟨hacc, List.nodup_singleton _, ?_⟩
          intro a ha ha2
          rw [List.mem_singleton] at ha2
          exact hs0 (ha2 ▸ ha)
        obtain ⟨h1, h2⟩ := ih (acc ++ [s0]) hacc2
        refine ⟨h1, fun s => ?_⟩
        rw [h2 s]
        simp only [List.mem_append, List.mem_singleton]
        constructor
        · rintro ((h | rfl) | ⟨a, ha, hc⟩)
          · exact Or.inl h
          · exact Or.inr ⟨o, List.mem_cons_self _ _, hcond.1, htr⟩
          · exact Or.inr ⟨a, List.mem_cons_of_mem _ ha, hc⟩
        · rintro (h | ⟨a, ha, hne, hsome⟩)
          · exact Or.inl (Or.inl h)
          · rcases List.mem_cons.mp ha with rfl | ha
            · rw [htr] at hsome
              exact Or.inl (Or.inr (Option.some.inj hsome).symm)
            · exact Or.inr ⟨a, ha, hne, hsome⟩
      · rw [if_neg hcond]
        obtain ⟨h1, h2⟩ := ih acc hacc
        refine ⟨h1, fun s => ?_⟩
        rw [h2 s]
        constructor
        · rintro (h | ⟨a, ha, hc⟩)
          · exact Or.inl h
          · exact Or.inr ⟨a, List.mem_cons_of_mem _ ha, hc⟩
        · rintro (h | ⟨a, ha, hne, hsome⟩)
          · exact Or.inl h
          · rcases List.mem_cons.mp ha with rfl | ha
            · rw [htr] at hsome
              obtain rfl := Option.some.inj hsome
              have hc : acc.contains s0 := by
                by_contra hc
                exact hcond ⟨hne, hc⟩
              exact Or.inl (by simpa using hc)
            · exact Or.inr ⟨a, ha, hne, hsome⟩

/-- The suggestion set of a dedup group is duplicate-free. -/
theorem collectSuggestions_nodup (best : Issue) (others : List Issue) :
    (collectSuggestions best others).Nodup := by
  unfold collectSuggestions
  rcases htr : truthyStr best.suggestion with _ | s0
  · exact (sugAdd_foldl_spec best.suggestion others [] (List.nodup_nil)).1
  · exact (sugAdd_foldl_spec best.suggestion others [s0] (List.nodup_singleton _)).1

/-- Membership in the suggestion set of a dedup group: exactly the best
issue's truthy suggestion and the differing truthy suggestions of the
dropped duplicates. -/
theorem collectSuggestions_mem (best : Issue) (others : List Issue) (s : String) :
    s ∈ collectSuggestions best others ↔
      truthyStr best.suggestion = some s ∨
      ∃ o ∈ others, o.suggestion ≠ best.suggestion ∧
        truthyStr o.suggestion = some s := by
  unfold collectSuggestions
  rcases htr : truthyStr best.suggestion with _ | s0
  · show s ∈ others.foldl (sugAdd best.suggestion) [] ↔ _
    rw [(sugAdd_foldl_spec best.suggestion others [] (List.nodup_nil)).2 s]
    simp
  · show s ∈ others.foldl (sugAdd best.suggestion) [s0] ↔ _
    rw [(sugAdd_foldl_spec best.suggestion others [s0] (List.nodup_singleton _)).2 s]
    simp only [List.mem_singleton, Option.some.injEq]
    constructor
    · rintro (rfl | h)
      · exact Or.inl rfl
      · exact Or.inr h
    · rintro (rfl | h)
      · exact Or.inl rfl
      · exact Or.inr h

/-- Per-group behaviour of `_deduplicate_issues`: the kept issue is the
first rank-maximal member, returned as is when the distinct-suggestion
set has at most one element and with the semicolon-joined suggestion set
otherwise. -/
theorem dedupOne_spec (g : List Issue) (hne : g ≠ []) :
    ∃ b ∈ g, (∀ i ∈ g, rankLt b i = false) ∧
      ((collectSuggestions b (g.filter (· ≠ b))).length ≤ 1 ∧ dedupOne g = b ∨
       1 < (collectSuggestions b (g.filter (· ≠ b))).length ∧
         dedupOne g = { b with suggestion := some (String.intercalate "; " (collectSuggestions b (g.filter (· ≠ b)))) }) := by
  rcases g with _ | ⟨x, _ | ⟨y, rest⟩⟩
  · exact absurd rfl hne
  · refine ⟨x, List.mem_singleton_self x, ?_, Or.inl ⟨?_, rfl⟩⟩
    · intro j hj
      rw [List.mem_singleton] at hj
      subst hj
      exact rankLtB_irrefl _
    · have hf : ([x].filter (· ≠ x)) = [] := by simp
      rw [hf]
      unfold collectSuggestions
      simp only [List.foldl_nil]
      rcases truthyStr x.suggestion with _ | s0
      · simp
      · simp
  · refine ⟨pyMaxIssueBy rankLt (x :: y :: rest),
      pyMaxIssueBy_mem rankLt _ (by simp),
      pyMaxIssueBy_max _, ?_⟩
    have hD : dedupOne (x :: y :: rest) =
        (if ((x :: y :: rest).filter (· ≠ pyMaxIssueBy rankLt (x :: y :: rest))).isEmpty
         then pyMaxIssueBy rankLt (x :: y :: rest)
         else
           if 1 < (collectSuggestions (pyMaxIssueBy rankLt (x :: y :: rest))
               ((x :: y :: rest).filter (· ≠ pyMaxIssueBy rankLt (x :: y :: rest)))).length
           then { (pyMaxIssueBy rankLt (x :: y :: rest)) with suggestion := some (String.intercalate "; " (collectSuggestions (pyMaxIssueBy rankLt (x :: y :: rest)) ((x :: y :: rest).filter (· ≠ pyMaxIssueBy rankLt (x :: y :: rest))))) }
           else pyMaxIssueBy rankLt (x :: y :: rest)) := rfl
    rw [hD]
    by_cases hemp :
        ((x :: y :: rest).filter (· ≠ pyMaxIssueBy rankLt (x :: y :: rest))).isEmpty
    · rw [if_pos hemp]
      left
      refine ⟨?_, rfl⟩
      rw [List.isEmpty_iff] at hemp
      rw [hemp]
      unfold collectSuggestions
      simp only [List.foldl_nil]
      rcases truthyStr (pyMaxIssueBy rankLt (x :: y :: rest)).suggestion with _ | s0
      · simp
      · simp
    · rw [if_neg hemp]
      by_cases hlen : 1 < (collectSuggestions (pyMaxIssueBy rankLt (x :: y :: rest))
          ((x :: y :: rest).filter (· ≠ pyMaxIssueBy rankLt (x :: y :: rest)))).length
      · rw [if_pos hlen]
        exact Or.inr ⟨hlen, rfl⟩
      · rw [if_neg hlen]
        exact Or.inl ⟨Nat.le_of_not_lt hlen, rfl⟩

/-- `_deduplicate_issues` keeps the common key of a uniform group: the
kept issue only ever differs from a group member in its suggestion,
which the key does not read. -/
theorem dedupKey_dedupOne {g : List Issue} {k : Int × Int × IssueType × String}
    (hne : g ≠ []) (hall : ∀ i ∈ g, dedupKey i = k) : dedupKey (dedupOne g) = k := by
  obtain ⟨b, hb, _, hres⟩ := dedupOne_spec g hne
  rcases hres with ⟨_, h⟩ | ⟨_, h⟩
  · rw [h]
    exact hall b hb
  · rw [h]
    have hk : dedupKey { b with suggestion := some (String.intercalate "; " (collectSuggestions b (g.filter (· ≠ b)))) } = dedupKey b := rfl
    rw [hk]
    exact hall b hb

/-- In a group list with pairwise distinct keys, the number of entries
carrying a given key is one when the key occurs and zero otherwise. -/
theorem countP_key_of_nodup (gs : List ((Int × Int × IssueType × String) × List Issue))
    (hnd : (gs.map Prod.fst).Nodup) (k : Int × Int × IssueType × String) :
    gs.countP (fun e => decide (e.1 = k)) =
      if gs.any (fun e => decide (e.1 = k)) then 1 else 0 := by
  induction gs with
  | nil => simp
  | cons e gs ih =>
    rw [List.map_cons, List.nodup_cons] at hnd
    by_cases he : e.1 = k
    · have hz : gs.countP (fun x => decide (x.1 = k)) = 0 := by
        rw [List.countP_eq_zero]
        intro a ha
        simp only [decide_eq_true_eq]
        intro hak
        apply hnd.1
        rw [he, ← hak]
        exact List.mem_map_of_mem Prod.fst ha
      rw [List.countP_cons_of_pos _ _ (by simp [he]), hz]
      simp [he]
    · rw [List.countP_cons_of_neg _ _ (by simp [he]), ih hnd.2, List.any_cons]
      have hd : decide (e.1 = k) = false := by simp [he]
      rw [hd, Bool.false_or]

theorem issueGroups_snoc (issues : List Issue) (i : Issue) :
    issueGroups (issues ++ [i]) = addToGroups (issueGroups issues) i := by
  simp [issueGroups, List.foldl_append]

/-- Invariant of the grouping dict of `_deduplicate_issues`: every entry
holds exactly the input issues bearing its key in input order, the keys
are pairwise distinct, and a key occurs iff some input issue bears it. -/
theorem issueGroups_spec (issues : List Issue) :
    (∀ e ∈ issueGroups issues, e.2 ≠ [] ∧
       e.2 = issues.filter (fun j => decide (dedupKey j = e.1))) ∧
    ((issueGroups issues).map Prod.fst).Nodup ∧
    (∀ k, (issueGroups issues).any (fun e => decide (e.1 = k)) =
          issues.any (fun j => decide (dedupKey j = k))) := by
  induction issues using List.reverseRecOn with
  | nil => refine ⟨?_, ?_, ?_⟩ <;> simp [issueGroups]
  | append_singleton l i ih =>
    obtain ⟨ih1, ih2, ih3⟩ := ih
    rw [issueGroups_snoc]
    simp only [addToGroups]
    by_cases hmem : (issueGroups l).any (fun x => decide (x.1 = dedupKey i)) = true
    · rw [if_pos hmem]
      refine ⟨?_, ?_, ?_⟩
      · intro e2 he2
        obtain ⟨e, he, rfl⟩ := List.mem_map.mp he2
        by_cases hk : e.1 = dedupKey i
        · rw [if_pos hk]
          refine ⟨by simp, ?_⟩
          show e.2 ++ [i] = (l ++ [i]).filter (fun j => decide (dedupKey j = e.1))
          rw [List.filter_append, ← (ih1 e he).2]
          have hone : List.filter (fun j => decide (dedupKey j = e.1)) [i] = [i] := by
            simp [hk]
          rw [hone]
        · rw [if_neg hk]
          refine ⟨(ih1 e he).1, ?_⟩
          rw [List.filter_append, ← (ih1 e he).2]
          have hzero : List.filter (fun j => decide (dedupKey j = e.1)) [i] = [] := by
            simp only [List.filter_cons, List.filter_nil, decide_eq_true_eq]
            rw [if_neg (fun h => hk h.symm)]
          rw [hzero, List.append_nil]
      · have hmf : (((issueGroups l).map
            (fun g => if g.1 = dedupKey i then (g.1, g.2 ++ [i]) else g)).map Prod.fst) =
            (issueGroups l).map Prod.fst := by
          rw [List.map_map]
          apply List.map_congr_left
          intro e he
          by_cases hk : e.1 = dedupKey i
          · simp [hk]
          · simp [hk]
        rw [hmf]
        exact ih2
      · intro k
        rw [Bool.eq_iff_iff, List.any_eq_true, List.any_eq_true]
        constructor
        · rintro ⟨e2, he2, hp⟩
          obtain ⟨e, he, rfl⟩ := List.mem_map.mp he2
          have hfst : (if e.1 = dedupKey i then (e.1, e.2 ++ [i]) else e).1 = e.1 := by
            by_cases hk : e.1 = dedupKey i
            · simp [hk]
            · simp [hk]
          rw [hfst] at hp
          have hl : (issueGroups l).any (fun e => decide (e.1 = k)) = true :=
            List.any_eq_true.mpr ⟨e, he, hp⟩
          rw [ih3 k, List.any_eq_true] at hl
          obtain ⟨j, hj, hjp⟩ := hl
          exact ⟨j, List.mem_append_left _ hj, hjp⟩
        · rintro ⟨j, hj, hjp⟩
          rcases List.mem_append.mp hj with hj | hj
          · have hl : l.any (fun j => decide (dedupKey j = k)) = true :=
              List.any_eq_true.mpr ⟨j, hj, hjp⟩
            rw [← ih3 k, List.any_eq_true] at hl
            obtain ⟨e, he, hp⟩ := hl
            refine ⟨if e.1 = dedupKey i then (e.1, e.2 ++ [i]) else e,
              List.mem_map_of_mem _ he, ?_⟩
            have hfst : (if e.1 = dedupKey i then (e.1, e.2 ++ [i]) else e).1 = e.1 := by
              by_cases hk : e.1 = dedupKey i
              · simp [hk]
              · simp [hk]
            rw [hfst]
            exact hp
          · rw [List.mem_singleton] at hj
            obtain ⟨e, he, hp⟩ := List.any_eq_true.mp hmem
            refine ⟨if e.1 = dedupKey i then (e.1, e.2 ++ [i]) else e,
              List.mem_map_of_mem _ he, ?_⟩
            have hk : e.1 = dedupKey i := of_decide_eq_true hp
            have hfst : (if e.1 = dedupKey i then (e.1, e.2 ++ [i]) else e).1 = e.1 := by
              simp [hk]
            rw [hfst, hk, ← hj]
            exact hjp
    · rw [if_neg hmem]
      have hnotin : dedupKey i ∉ (issueGroups l).map Prod.fst := by
        intro hin
        apply hmem
        obtain ⟨e, he, hfe⟩ := List.mem_map.mp hin
        exact List.any_eq_true.mpr ⟨e, he, by simp [hfe]⟩
      have hlnone : l.any (fun j => decide (dedupKey j = dedupKey i)) = false := by
        rw [← ih3]
        exact Bool.not_eq_true _ ▸ (by simpa using hmem)
      refine ⟨?_, ?_, ?_⟩
      · intro e2 he2
        rcases List.mem_append.mp he2 with he | he
        · refine ⟨(ih1 e2 he).1, ?_⟩
          rw [List.filter_append, ← (ih1 e2 he).2]
          have hzero : List.filter (fun j => decide (dedupKey j = e2.1)) [i] = [] := by
            simp only [List.filter_cons, List.filter_nil, decide_eq_true_eq]
            rw [if_neg]
            intro hcon
            apply hmem
            refine List.any_eq_true.mpr ⟨e2, he, by simp [hcon.symm]⟩
          rw [hzero, List.append_nil]
        · rw [List.mem_singleton] at he
          subst he
          refine ⟨by simp, ?_⟩
          show [i] = (l ++ [i]).filter (fun j => decide (dedupKey j = dedupKey i))
          rw [List.filter_append]
          have hz : List.filter (fun j => decide (dedupKey j = dedupKey i)) l = [] := by
            rw [List.filter_eq_nil_iff]
            intro a ha
            simp only [decide_eq_true_eq]
            intro hcon
            have : l.any (fun j => decide (dedupKey j = dedupKey i)) = true :=
              List.any_eq_true.mpr ⟨a, ha, by simp [hcon]⟩
            rw [hlnone] at this
            cases this
          rw [hz]
          simp
      · rw [List.map_append, List.nodup_append]
        refine ⟨ih2, by simp, ?_⟩
        intro a ha ha2
        simp only [List.map_cons, List.map_nil, List.mem_singleton] at ha2
        subst ha2
        exact hnotin ha
      · intro k
        rw [List.any_append, List.any_append, ih3 k]
        simp

/-- Two same-key spelling issues at offsets (10, 20) emitted by two
different verifiers, as in the spec example. -/
def spellingIssueA : Issue :=
  { type := .spelling, severity := .warning, message := "Possible spelling error",
    offset_start := 10, offset_end := 20, source_verifier := some "LanguageToolVerifier" }

def spellingIssueB : Issue :=
  { type := .spelling, severity := .warning, message := "Possible spelling error",
    offset_start := 10, offset_end := 20, source_verifier := some "HeuristicVerifier" }

/-- **C7**: `_deduplicate_issues` collapses issues sharing the key
`(offset_start, offset_end, type, lowercased message)` to exactly one
output issue per key; the kept issue is a group member maximal under the
`(confidence, verifier priority)` order, with priority grammar backend >
placeholder validator > heuristic; the distinct truthy suggestions of
the group (the best issue's own plus the differing ones of dropped
duplicates), when more than one, are merged semicolon-joined into the
kept issue's suggestion; and the spec's example — two verifiers each
emitting a spelling issue at offsets (10, 20) with the same message —
collapses to exactly the higher-priority issue. -/
theorem composite_dedup_one_per_key (issues : List Issue) :
    (verifierPriorities "PlaceholderValidator" < verifierPriorities "LanguageToolVerifier" ∧
     verifierPriorities "HeuristicVerifier" < verifierPriorities "PlaceholderValidator") ∧
    (∀ k : Int × Int × IssueType × String,
      (deduplicateIssues issues).countP (fun j => decide (dedupKey j = k)) =
        if issues.any (fun j => decide (dedupKey j = k)) then 1 else 0) ∧
    (∀ j ∈ deduplicateIssues issues, ∃ b ∈ issues,
      dedupKey b = dedupKey j ∧
      (∀ i ∈ issues, dedupKey i = dedupKey b → rankLt b i = false) ∧
      ∃ l : List String, l.Nodup ∧
        (∀ s, s ∈ l ↔ (truthyStr b.suggestion = some s ∨
          ∃ o ∈ issues, dedupKey o = dedupKey b ∧ o ≠ b ∧
            o.suggestion ≠ b.suggestion ∧ truthyStr o.suggestion = some s)) ∧
        (l.length ≤ 1 ∧ j = b ∨
         1 < l.length ∧ j = { b with suggestion := some (String.intercalate "; " l) })) ∧
    deduplicateIssues [spellingIssueA, spellingIssueB] = [spellingIssueA] := by
  refine ⟨⟨by decide, by decide⟩, ?_, ?_, by rfl⟩
  · intro k
    by_cases hniss : issues = []
    · subst hniss
      simp [deduplicateIssues]
    · unfold deduplicateIssues
      rw [if_neg (by simpa [List.isEmpty_iff] using hniss)]
      obtain ⟨hg1, hg2, hg3⟩ := issueGroups_spec issues
      rw [List.countP_map]
      have hcongr : ∀ e ∈ issueGroups issues,
          ((fun j => decide (dedupKey j = k)) ∘ (fun g => dedupOne g.2)) e = true ↔
          (fun e => decide (e.1 = k)) e = true := by
        intro e he
        obtain ⟨hne2, hfe⟩ := hg1 e he
        have hkey : dedupKey (dedupOne e.2) = e.1 := by
          apply dedupKey_dedupOne hne2
          intro x hx
          rw [hfe] at hx
          exact of_decide_eq_true (List.mem_filter.mp hx).2
        simp [Function.comp, hkey]
      rw [List.countP_congr hcongr, countP_key_of_nodup _ hg2 k, hg3 k]
  · intro j hj
    have hniss : issues ≠ [] := by
      intro h
      subst h
      simp [deduplicateIssues] at hj
    unfold deduplicateIssues at hj
    rw [if_neg (by simpa [List.isEmpty_iff] using hniss)] at hj
    obtain ⟨e, he, rfl⟩ := List.mem_map.mp hj
    obtain ⟨hg1, hg2, hg3⟩ := issueGroups_spec issues
    obtain ⟨hne2, hfe⟩ := hg1 e he
    have hallk : ∀ x ∈ e.2, dedupKey x = e.1 := by
      intro x hx
      rw [hfe] at hx
      exact of_decide_eq_true (List.mem_filter.mp hx).2
    obtain ⟨b, hb, hmax, hres⟩ := dedupOne_spec e.2 hne2
    have hbIss : b ∈ issues := by
      have hbf := hb
      rw [hfe] at hbf
      exact (List.mem_filter.mp hbf).1
    have hkb : dedupKey b = e.1 := hallk b hb
    have hkey : dedupKey (dedupOne e.2) = e.1 := dedupKey_dedupOne hne2 hallk
    refine ⟨b, hbIss, ?_, ?_, ?_⟩
    · rw [hkb, hkey]
    · intro i hi hik
      apply hmax
      rw [hfe]
      exact List.mem_filter.mpr ⟨hi, by simp [hik, hkb]⟩
    · refine ⟨collectSuggestions b (e.2.filter (· ≠ b)),
        collectSuggestions_nodup _ _, ?_, hres⟩
      intro s
      rw [collectSuggestions_mem]
      constructor
      · rintro (h | ⟨o, ho, hos, hts⟩)
        · exact Or.inl h
        · obtain ⟨ho2, hob⟩ := List.mem_filter.mp ho
          have hof := ho2
          rw [hfe] at hof
          refine Or.inr ⟨o, (List.mem_filter.mp hof).1, ?_,
            of_decide_eq_true hob, hos, hts⟩
          rw [hallk o ho2, hkb]
      · rintro (h | ⟨o, ho, hko, honeb, hos, hts⟩)
        · exact Or.inl h
        · refine Or.inr ⟨o, ?_, hos, hts⟩
          apply List.mem_filter.mpr
          refine ⟨?_, by simp [honeb]⟩
          rw [hfe]
          exact List.mem_filter.mpr ⟨ho, by simp [hko, hkb]⟩

theorem composite_dedup_one_per_key_witness :
    ∃ b ∈ ([spellingIssueA, spellingIssueB] : List Issue),
      dedupKey b = dedupKey spellingIssueA ∧
      (∀ i ∈ ([spellingIssueA, spellingIssueB] : List Issue),
        dedupKey i = dedupKey b → rankLt b i = false) ∧
      ∃ l : List String, l.Nodup ∧
        (∀ s, s ∈ l ↔ (truthyStr b.suggestion = some s ∨
          ∃ o ∈ ([spellingIssueA, spellingIssueB] : List Issue),
            dedupKey o = dedupKey b ∧ o ≠ b ∧
            o.suggestion ≠ b.suggestion ∧ truthyStr o.suggestion = some s)) ∧
        (l.length ≤ 1 ∧ spellingIssueA = b ∨
         1 < l.length ∧ spellingIssueA = { b with suggestion := some (String.intercalate "; " l) }) :=
  (composite_dedup_one_per_key [spellingIssueA, spellingIssueB]).2.2.1 spellingIssueA
    (by show spellingIssueA ∈ ([spellingIssueA] : List Issue)
        exact List.mem_singleton_self _)

/-! ### C8: composite-verifier overlap merging.
Supporting lemmas: the stable insertion sort, the extremal folds, the
message/suggestion sets, the highest-confidence base, and the chunking
loop. -/

theorem stableInsert_perm {α : Type} (le : α → α → Bool) (x : α) (l : List α) :
    (stableInsert le x l).Perm (x :: l) := by
  induction l with
  | nil => exact List.Perm.refl _
  | cons y ys ih =>
    show (if le y x then y :: stableInsert le x ys else x :: y :: ys).Perm (x :: y :: ys)
    by_cases h : le y x = true
    · rw [if_pos h]
      exact (ih.cons y).trans (List.Perm.swap x y ys)
    · rw [if_neg h]

theorem pySortBy_foldl_perm {α : Type} (le : α → α → Bool) (l : List α) :
    ∀ acc : List α, (l.foldl (fun acc x => stableInsert le x acc) acc).Perm (acc ++ l) := by
  induction l with
  | nil => intro acc; simp
  | cons x xs ih =>
    intro acc
    simp only [List.foldl_cons]
    refine (ih (stableInsert le x acc)).trans ?_
    refine (List.Perm.append_right xs (stableInsert_perm le x acc)).trans ?_
    exact List.perm_middle.symm

/-- The Python list sort is a permutation of its input. -/
theorem pySortBy_perm {α : Type} (le : α → α → Bool) (l : List α) :
    (pySortBy le l).Perm l := by
  have h := pySortBy_foldl_perm le l []
  simpa [pySortBy] using h

theorem stableInsert_mem {α : Type} (le : α → α → Bool) (x : α) (l : List α) (z : α)
    (hz : z ∈ stableInsert le x l) : z = x ∨ z ∈ l := by
  have := (stableInsert_perm le x l).mem_iff.mp hz
  simpa using this

/-- Inserting into a `le`-sorted list keeps it sorted when `le` is total
and transitive. -/
theorem stableInsert_pairwise {α : Type} {le : α → α → Bool}
    (htot : ∀ a b, le a b = false → le b a = true)
    (htrans : ∀ a b c, le a b = true → le b c = true → le a c = true)
    (x : α) (l : List α) (hl : l.Pairwise (fun a b => le a b = true)) :
    (stableInsert le x l).Pairwise (fun a b => le a b = true) := by
  induction l with
  | nil => exact List.pairwise_singleton _ _
  | cons y ys ih =>
    rw [List.pairwise_cons] at hl
    show (if le y x then y :: stableInsert le x ys else x :: y :: ys).Pairwise _
    by_cases h : le y x = true
    · rw [if_pos h]
      rw [List.pairwise_cons]
      refine ⟨?_, ih hl.2⟩
      intro z hz
      rcases stableInsert_mem le x ys z hz with rfl | hz
      · exact h
      · exact hl.1 z hz
    · rw [if_neg h]
      have hxy : le x y = true := htot y x (by simpa using h)
      rw [List.pairwise_cons]
      refine ⟨?_, List.pairwise_cons.mpr hl⟩
      intro z hz
      rcases List.mem_cons.mp hz with rfl | hz
      · exact hxy
      · exact htrans x y z hxy (hl.1 z hz)

theorem pySortBy_foldl_pairwise {α : Type} {le : α → α → Bool}
    (htot : ∀ a b, le a b = false → le b a = true)
    (htrans : ∀ a b c, le a b = true → le b c = true → le a c = true)
    (l : List α) :
    ∀ acc : List α, acc.Pairwise (fun a b => le a b = true) →
      (l.foldl (fun acc x => stableInsert le x acc) acc).Pairwise
        (fun a b => le a b = true) := by
  induction l with
  | nil => intro acc hacc; exact hacc
  | cons x xs ih =>
    intro acc hacc
    simp only [List.foldl_cons]
    exact ih _ (stableInsert_pairwise htot htrans x acc hacc)

/-- The Python list sort sorts, for a total transitive boolean key
comparison. -/
theorem pySortBy_pairwise {α : Type} {le : α → α → Bool}
    (htot : ∀ a b, le a b = false → le b a = true)
    (htrans : ∀ a b c, le a b = true → le b c = true → le a c = true)
    (l : List α) : (pySortBy le l).Pairwise (fun a b => le a b = true) :=
  pySortBy_foldl_pairwise htot htrans l [] List.Pairwise.nil

/-- The sorted output of `_merge_overlapping_issues` is a permutation of
the input issues. -/
theorem sortIssuesByOffset_perm (issues : List Issue) :
    (sortIssuesByOffset issues).Perm issues :=
  pySortBy_perm _ issues

/-- The sorted output of `_merge_overlapping_issues` is ordered by
`(offset_start, offset_end)`. -/
theorem sortIssuesByOffset_pairwise (issues : List Issue) :
    (sortIssuesByOffset issues).Pairwise (fun a b =>
      a.offset_start < b.offset_start ∨
        (a.offset_start = b.offset_start ∧ a.offset_end ≤ b.offset_end)) := by
  have h := @pySortBy_pairwise Issue
    (fun a b =>
      decide (a.offset_start < b.offset_start ∨
        (a.offset_start = b.offset_start ∧ a.offset_end ≤ b.offset_end)))
    (by
      intro a b hab
      simp only [decide_eq_false_iff_not, decide_eq_true_eq] at *
      omega)
    (by
      intro a b c hab hbc
      simp only [decide_eq_true_eq] at *
      omega)
    issues
  exact h.imp (by
    intro a b hab
    simpa using hab)

theorem foldl_min_spec (l : List Int) : ∀ a : Int,
    (l.foldl min a ≤ a ∧ ∀ x ∈ l, l.foldl min a ≤ x) ∧
    (l.foldl min a = a ∨ l.foldl min a ∈ l) := by
  induction l with
  | nil => intro a; exact ⟨⟨le_refl _, by simp⟩, Or.inl rfl⟩
  | cons x xs ih =>
    intro a
    simp only [List.foldl_cons]
    obtain ⟨⟨h1, h2⟩, h3⟩ := ih (min a x)
    refine ⟨⟨le_trans h1 (min_le_left _ _), fun z hz => ?_⟩, ?_⟩
    · rcases List.mem_cons.mp hz with rfl | hz
      · exact le_trans h1 (min_le_right _ _)
      · exact h2 z hz
    · rcases h3 with heq | hmem
      · rw [heq]
        rcases min_cases a x with ⟨h, _⟩ | ⟨h, _⟩
        · exact Or.inl h
        · exact Or.inr (by rw [h]; exact List.mem_cons_self _ _)
      · exact Or.inr (List.mem_cons_of_mem _ hmem)

theorem foldl_max_spec (l : List Int) : ∀ a : Int,
    (a ≤ l.foldl max a ∧ ∀ x ∈ l, x ≤ l.foldl max a) ∧
    (l.foldl max a = a ∨ l.foldl max a ∈ l) := by
  induction l with
  | nil => intro a; exact ⟨⟨le_refl _, by simp⟩, Or.inl rfl⟩
  | cons x xs ih =>
    intro a
    simp only [List.foldl_cons]
    obtain ⟨⟨h1, h2⟩, h3⟩ := ih (max a x)
    refine ⟨⟨le_trans (le_max_left _ _) h1, fun z hz => ?_⟩, ?_⟩
    · rcases List.mem_cons.mp hz with rfl | hz
      · exact le_trans (le_max_right _ _) h1
      · exact h2 z hz
    · rcases h3 with heq | hmem
      · rw [heq]
        rcases max_cases a x with ⟨h, _⟩ | ⟨h, _⟩
        · exact Or.inl h
        · exact Or.inr (by rw [h]; exact List.mem_cons_self _ _)
      · exact Or.inr (List.mem_cons_of_mem _ hmem)

/-- The comparison of Python `max(group, key=lambda x: x.confidence)`. -/
def confLt (a y : Issue) : Bool := a.confidence < y.confidence

theorem confLt_fold_max (l : List Issue) : ∀ b : Issue,
    b.confidence ≤ (l.foldl (fun acc y => if confLt acc y then y else acc) b).confidence ∧
    ∀ y ∈ l, y.confidence ≤
      (l.foldl (fun acc y => if confLt acc y then y else acc) b).confidence := by
  induction l with
  | nil => intro b; exact ⟨le_refl _, by simp⟩
  | cons y ys ih =>
    intro b
    simp only [List.foldl_cons]
    by_cases hc : confLt b y = true
    · rw [if_pos hc]
      obtain ⟨ih1, ih2⟩ := ih y
      have hby : b.confidence ≤ y.confidence :=
        le_of_lt (by simpa [confLt] using hc)
      refine ⟨le_trans hby ih1, fun z hz => ?_⟩
      rcases List.mem_cons.mp hz with rfl | hz
      · exact ih1
      · exact ih2 z hz
    · rw [if_neg hc]
      obtain ⟨ih1, ih2⟩ := ih b
      have hyb : y.confidence ≤ b.confidence := by
        have hf : ¬ b.confidence < y.confidence := by simpa [confLt] using hc
        exact le_of_not_lt hf
      refine ⟨ih1, fun z hz => ?_⟩
      rcases List.mem_cons.mp hz with rfl | hz
      · exact le_trans hyb ih1
      · exact ih2 z hz

/-- Python `max(group, key=confidence)` has maximal confidence. -/
theorem pyMax_conf_max (g : List Issue) :
    ∀ i ∈ g, i.confidence ≤ (pyMaxIssueBy confLt g).confidence := by
  cases g with
  | nil => simp
  | cons x xs =>
    intro i hi
    obtain ⟨h1, h2⟩ := confLt_fold_max xs x
    rcases List.mem_cons.mp hi with rfl | hi
    · exact h1
    · exact h2 i hi

theorem msgAdd_foldl_spec (l : List Issue) :
    ∀ acc : List String, acc.Nodup →
      ((l.foldl msgAdd acc).Nodup ∧
       ∀ m, m ∈ l.foldl msgAdd acc ↔ m ∈ acc ∨ ∃ i ∈ l, i.message = m) := by
  induction l with
  | nil => intro acc hacc; exact ⟨hacc, by simp⟩
  | cons i l ih =>
    intro acc hacc
    simp only [List.foldl_cons]
    by_cases hc : acc.contains i.message = true
    · rw [show msgAdd acc i = acc from by unfold msgAdd; rw [if_pos hc]]
      obtain ⟨h1, h2⟩ := ih acc hacc
      refine ⟨h1, fun m => ?_⟩
      rw [h2 m]
      constructor
      · rintro (h | ⟨a, ha, hm⟩)
        · exact Or.inl h
        · exact Or.inr ⟨a, List.mem_cons_of_mem _ ha, hm⟩
      · rintro (h | ⟨a, ha, hm⟩)
        · exact Or.inl h
        · rcases List.mem_cons.mp ha with rfl | ha
          · exact Or.inl (hm ▸ (by simpa using hc))
          · exact Or.inr ⟨a, ha, hm⟩
    · rw [show msgAdd acc i = acc ++ [i.message] from by unfold msgAdd; rw [if_neg hc]]
      have hnm : i.message ∉ acc := by simpa using hc
      have hacc2 : (acc ++ [i.message]).Nodup := by
        rw [List.nodup_append]
        refine ⟨hacc, List.nodup_singleton _, ?_⟩
        intro a ha ha2
        rw [List.mem_singleton] at ha2
        exact hnm (ha2 ▸ ha)
      obtain ⟨h1, h2⟩ := ih (acc ++ [i.message]) hacc2
      refine ⟨h1, fun m => ?_⟩
      rw [h2 m]
      simp only [List.mem_append, List.mem_singleton]
      constructor
      · rintro ((h | rfl) | ⟨a, ha, hm⟩)
        · exact Or.inl h
        · exact Or.inr ⟨i, List.mem_cons_self _ _, rfl⟩
        · exact Or.inr ⟨a, List.mem_cons_of_mem _ ha, hm⟩
      · rintro (h | ⟨a, ha, hm⟩)
        · exact Or.inl (Or.inl h)
        · rcases List.mem_cons.mp ha with rfl | ha
          · exact Or.inl (Or.inr hm.symm)
          · exact Or.inr ⟨a, ha, hm⟩

theorem sugAddAll_none {i : Issue} (acc : List String)
    (h : truthyStr i.suggestion = none) : sugAddAll acc i = acc := by
  unfold sugAddAll
  rw [h]

theorem sugAddAll_some {i : Issue} {s0 : String} (acc : List String)
    (h : truthyStr i.suggestion = some s0) :
    sugAddAll acc i = if acc.contains s0 then acc else acc ++ [s0] := by
  unfold sugAddAll
  rw [h]

theorem sugAddAll_foldl_spec (l : List Issue) :
    ∀ acc : List String, acc.Nodup →
      ((l.foldl sugAddAll acc).Nodup ∧
       ∀ t, t ∈ l.foldl sugAddAll acc ↔
         t ∈ acc ∨ ∃ i ∈ l, truthyStr i.suggestion = some t) := by
  induction l with
  | nil => intro acc hacc; exact ⟨hacc, by simp⟩
  | cons i l ih =>
    intro acc hacc
    simp only [List.foldl_cons]
    rcases htr : truthyStr i.suggestion with _ | s0
    · rw [sugAddAll_none acc htr]
      obtain ⟨h1, h2⟩ := ih acc hacc
      refine ⟨h1, fun t => ?_⟩
      rw [h2 t]
      constructor
      · rintro (h | ⟨a, ha, hm⟩)
        · exact Or.inl h
        · exact Or.inr ⟨a, List.mem_cons_of_mem _ ha, hm⟩
      · rintro (h | ⟨a, ha, hm⟩)
        · exact Or.inl h
        · rcases List.mem_cons.mp ha with rfl | ha
          · rw [htr] at hm
            cases hm
          · exact Or.inr ⟨a, ha, hm⟩
    · rw [sugAddAll_some acc htr]
      by_cases hc : acc.contains s0 = true
      · rw [if_pos hc]
        obtain ⟨h1, h2⟩ := ih acc hacc
        refine ⟨h1, fun t => ?_⟩
        rw [h2 t]
        constructor
        · rintro (h | ⟨a, ha, hm⟩)
          · exact Or.inl h
          · exact Or.inr ⟨a, List.mem_cons_of_mem _ ha, hm⟩
        · rintro (h | ⟨a, ha, hm⟩)
          · exact Or.inl h
          · rcases List.mem_cons.mp ha with rfl | ha
            · rw [htr] at hm
              obtain rfl := Option.some.inj hm
              exact Or.inl (by simpa using hc)
            · exact Or.inr ⟨a, ha, hm⟩
      · rw [if_neg hc]
        have hns : s0 ∉ acc := by simpa using hc
        have hacc2 : (acc ++ [s0]).Nodup := by
          rw [List.nodup_append]
          refine ⟨hacc, List.nodup_singleton _, ?_⟩
          intro a ha ha2
          rw [List.mem_singleton] at ha2
          exact hns (ha2 ▸ ha)
        obtain ⟨h1, h2⟩ := ih (acc ++ [s0]) hacc2
        refine ⟨h1, fun t => ?_⟩
        rw [h2 t]
        simp only [List.mem_append, List.mem_singleton]
        constructor
        · rintro ((h | rfl) | ⟨a, ha, hm⟩)
          · exact Or.inl h
          · exact Or.inr ⟨i, List.mem_cons_self _ _, htr⟩
          · exact Or.inr ⟨a, List.mem_cons_of_mem _ ha, hm⟩
        · rintro (h | ⟨a, ha, hm⟩)
          · exact Or.inl (Or.inl h)
          · rcases List.mem_cons.mp ha with rfl | ha
            · rw [htr] at hm
              exact Or.inl (Or.inr (Option.some.inj hm).symm)
            · exact Or.inr ⟨a, ha, hm⟩

theorem intercalate_singleton (s : String) : String.intercalate "; " [s] = s := rfl

theorem truthyStr_eq_some {o : Option String} {s : String}
    (h : truthyStr o = some s) : o = some s := by
  cases o with
  | none => cases h
  | some s1 =>
    rw [show truthyStr (some s1) = if s1.isEmpty then none else some s1 from rfl] at h
    by_cases he : s1.isEmpty = true
    · rw [if_pos he] at h
      cases h
    · rw [if_neg he] at h
      exact h

/-- Per-group behaviour of `_merge_issue_group`: the result takes every
field from a confidence-maximal member except that its span is widened
to the extremes of the group, its message joins the distinct group
messages when there is more than one, and its suggestion joins the
distinct truthy group suggestions when there is at least one. -/
theorem mergeIssueGroup_spec (g : List Issue) (hne : g ≠ []) :
    ∃ base ∈ g, (∀ i ∈ g, i.confidence ≤ base.confidence) ∧
      (∀ i ∈ g, (mergeIssueGroup g).offset_start ≤ i.offset_start) ∧
      (mergeIssueGroup g).offset_start ∈ g.map (fun i => i.offset_start) ∧
      (∀ i ∈ g, i.offset_end ≤ (mergeIssueGroup g).offset_end) ∧
      (mergeIssueGroup g).offset_end ∈ g.map (fun i => i.offset_end) ∧
      ∃ msgs sugs : List String, msgs.Nodup ∧ sugs.Nodup ∧
        (∀ m, m ∈ msgs ↔ ∃ i ∈ g, i.message = m) ∧
        (∀ t, t ∈ sugs ↔ ∃ i ∈ g, truthyStr i.suggestion = some t) ∧
        mergeIssueGroup g = { base with offset_start := (mergeIssueGroup g).offset_start, offset_end := (mergeIssueGroup g).offset_end, message := if 1 < msgs.length then "Multiple issues: " ++ String.intercalate "; " msgs else base.message, suggestion := if sugs.isEmpty then base.suggestion else some (String.intercalate "; " sugs) } := by
  rcases g with _ | ⟨x, _ | ⟨y, rest⟩⟩
  · exact absurd rfl hne
  · refine ⟨x, List.mem_singleton_self x, ?_, ?_, ?_, ?_, ?_, [x.message], ?_⟩
    · intro i hi
      rw [List.mem_singleton] at hi
      subst hi
      exact le_refl _
    · intro i hi
      rw [List.mem_singleton] at hi
      subst hi
      exact le_refl _
    · exact List.mem_singleton_self _
    · intro i hi
      rw [List.mem_singleton] at hi
      subst hi
      exact le_refl _
    · exact List.mem_singleton_self _
    rcases htr : truthyStr x.suggestion with _ | s0
    · refine ⟨[], List.nodup_singleton _, List.nodup_nil, by simp [eq_comm], ?_, ?_⟩
      · intro t
        simp only [List.not_mem_nil, false_iff]
        rintro ⟨a, ha, hm⟩
        rw [List.mem_singleton] at ha
        subst ha
        rw [htr] at hm
        cases hm
      · show x = { x with offset_start := x.offset_start, offset_end := x.offset_end, message := if 1 < ([x.message] : List String).length then "Multiple issues: " ++ String.intercalate "; " [x.message] else x.message, suggestion := if ([] : List String).isEmpty then x.suggestion else some (String.intercalate "; " ([] : List String)) }
        rw [if_neg (by simp : ¬ (1 < ([x.message] : List String).length)),
          if_pos (by decide : (([] : List String).isEmpty : Prop))]
    · refine ⟨[s0], List.nodup_singleton _, List.nodup_singleton _, by simp [eq_comm], ?_, ?_⟩
      · intro t
        constructor
        · intro ht
          rw [List.mem_singleton] at ht
          subst ht
          exact ⟨x, List.mem_singleton_self x, htr⟩
        · rintro ⟨a, ha, hm⟩
          rw [List.mem_singleton] at ha
          subst ha
          rw [htr] at hm
          rw [List.mem_singleton]
          exact (Option.some.inj hm).symm
      · show x = { x with offset_start := x.offset_start, offset_end := x.offset_end, message := if 1 < ([x.message] : List String).length then "Multiple issues: " ++ String.intercalate "; " [x.message] else x.message, suggestion := if ([s0] : List String).isEmpty then x.suggestion else some (String.intercalate "; " [s0]) }
        rw [if_neg (by simp : ¬ (1 < ([x.message] : List String).length)),
          if_neg (by simp : ¬ (([s0] : List String).isEmpty = true)),
          intercalate_singleton, ← truthyStr_eq_some htr]
  · have hM : mergeIssueGroup (x :: y :: rest) = { (pyMaxIssueBy confLt (x :: y :: rest)) with offset_start := ((x :: y :: rest).map (fun i => i.offset_start)).foldl min x.offset_start, offset_end := ((x :: y :: rest).map (fun i => i.offset_end)).foldl max x.offset_end, message := if 1 < ((x :: y :: rest).foldl msgAdd []).length then "Multiple issues: " ++ String.intercalate "; " ((x :: y :: rest).foldl msgAdd []) else (pyMaxIssueBy confLt (x :: y :: rest)).message, suggestion := if ((x :: y :: rest).foldl sugAddAll []).isEmpty then (pyMaxIssueBy confLt (x :: y :: rest)).suggestion else some (String.intercalate "; " ((x :: y :: rest).foldl sugAddAll [])) } := rfl
    obtain ⟨⟨hmin1, hmin2⟩, hmin3⟩ :=
      foldl_min_spec ((x :: y :: rest).map (fun i => i.offset_start)) x.offset_start
    obtain ⟨⟨hmax1, hmax2⟩, hmax3⟩ :=
      foldl_max_spec ((x :: y :: rest).map (fun i => i.offset_end)) x.offset_end
    obtain ⟨hmnd, hmmem⟩ := msgAdd_foldl_spec (x :: y :: rest) [] List.nodup_nil
    obtain ⟨hsnd, hsmem⟩ := sugAddAll_foldl_spec (x :: y :: rest) [] List.nodup_nil
    refine ⟨pyMaxIssueBy confLt (x :: y :: rest),
      pyMaxIssueBy_mem confLt _ (by simp),
      pyMax_conf_max _, ?_, ?_, ?_, ?_,
      (x :: y :: rest).foldl msgAdd [], (x :: y :: rest).foldl sugAddAll [],
      hmnd, hsnd, ?_, ?_, ?_⟩
    · intro i hi
      rw [hM]
      exact hmin2 _ (List.mem_map_of_mem _ hi)
    · rw [hM]
      rcases hmin3 with heq | hmem
      · show (((x :: y :: rest).map (fun i => i.offset_start)).foldl min x.offset_start) ∈ _
        rw [heq]
        exact List.mem_map_of_mem _ (List.mem_cons_self _ _)
      · exact hmem
    · intro i hi
      rw [hM]
      exact hmax2 _ (List.mem_map_of_mem _ hi)
    · rw [hM]
      rcases hmax3 with heq | hmem
      · show (((x :: y :: rest).map (fun i => i.offset_end)).foldl max x.offset_end) ∈ _
        rw [heq]
        exact List.mem_map_of_mem _ (List.mem_cons_self _ _)
      · exact hmem
    · intro m
      rw [hmmem m]
      simp
    · intro t
      rw [hsmem t]
      simp
    · rw [hM]

/-- Invariant of the grouping loop of `_merge_overlapping_issues`,
for a nonempty chained current group: the produced chunks concatenate
back to the remaining input, the first chunk extends the current group
in place, every chunk is a nonempty run chained by the overlap
condition, and the condition fails across chunk boundaries. -/
theorem overlapChunks_spec (rest : List Issue) :
    ∀ cg : List Issue, cg ≠ [] → cg.Chain' (fun a b => overlapCond a b = true) →
      (overlapChunks cg rest).flatten = cg ++ rest ∧
      (∃ c0 cs, overlapChunks cg rest = c0 :: cs ∧ c0.head? = cg.head?) ∧
      (∀ c ∈ overlapChunks cg rest, c ≠ [] ∧
        c.Chain' (fun a b => overlapCond a b = true)) ∧
      (overlapChunks cg rest).Chain'
        (fun c1 c2 => ∀ a ∈ c1.getLast?, ∀ b ∈ c2.head?, overlapCond a b = false) := by
  induction rest with
  | nil =>
    intro cg hne hch
    refine ⟨by simp [overlapChunks], ⟨cg, [], rfl, rfl⟩, ?_, ?_⟩
    · intro c hc
      rw [show overlapChunks cg [] = [cg] from rfl, List.mem_singleton] at hc
      subst hc
      exact ⟨hne, hch⟩
    · rw [show overlapChunks cg [] = [cg] from rfl]
      exact List.chain'_singleton _
  | cons i rest2 ih =>
    intro cg hne hch
    obtain ⟨lastI, hlast⟩ : ∃ l2, cg.getLast? = some l2 :=
      ⟨cg.getLast hne, List.getLast?_eq_getLast cg hne⟩
    have hstep : overlapChunks cg (i :: rest2) =
        (if overlapCond lastI i then overlapChunks (cg ++ [i]) rest2
         else cg :: overlapChunks [i] rest2) := by
      show (match cg.getLast? with
        | none => overlapChunks [i] rest2
        | some lastIssue =>
          if overlapCond lastIssue i then overlapChunks (cg ++ [i]) rest2
          else cg :: overlapChunks [i] rest2) = _
      rw [hlast]
    by_cases hov : overlapCond lastI i = true
    · rw [hstep, if_pos hov]
      have hch2 : (cg ++ [i]).Chain' (fun a b => overlapCond a b = true) := by
        apply List.Chain'.append hch (List.chain'_singleton _)
        intro a ha b hb
        have ha2 : a = lastI := by
          rw [hlast] at ha
          exact (by simpa using ha : lastI = a).symm
        have hb2 : b = i := (by simpa using hb : i = b).symm
        subst ha2
        subst hb2
        exact hov
      obtain ⟨hj, hhead, hall, hchain⟩ := ih (cg ++ [i]) (by simp) hch2
      refine ⟨?_, ?_, hall, hchain⟩
      · rw [hj, List.append_assoc]
        simp
      · obtain ⟨c0, cs, heq, hh⟩ := hhead
        refine ⟨c0, cs, heq, ?_⟩
        rw [hh]
        cases cg with
        | nil => exact absurd rfl hne
        | cons a as => simp
    · have hovf : overlapCond lastI i = false := by simpa using hov
      rw [hstep, if_neg hov]
      obtain ⟨hj, hhead, hall, hchain⟩ := ih [i] (by simp) (List.chain'_singleton _)
      obtain ⟨c0, cs, heq, hh⟩ := hhead
      refine ⟨?_, ⟨cg, overlapChunks [i] rest2, rfl, rfl⟩, ?_, ?_⟩
      · rw [List.flatten_cons, hj]
        simp
      · intro c hc
        rcases List.mem_cons.mp hc with rfl | hc
        · exact ⟨hne, hch⟩
        · exact hall c hc
      · rw [heq]
        rw [heq] at hchain
        apply List.chain'_cons.mpr
        refine ⟨?_, hchain⟩
        intro a ha b hb
        have ha2 : a = lastI := by
          rw [hlast] at ha
          exact (by simpa using ha : lastI = a).symm
        have hb2 : b = i := by
          rw [hh] at hb
          exact (by simpa using hb : i = b).symm
        subst ha2
        subst hb2
        exact hovf

/-- **C8**: `_merge_overlapping_issues` first sorts by
`(offset_start, offset_end)` (a permutation of its input), then splits
the sorted list into maximal consecutive runs in which every issue
starts no later than the previous issue's end, has the same type, and
starts within 50 characters of the previous start — the condition fails
across run boundaries — and maps each run to a single issue: fields
seeded from a highest-confidence member, span `[min starts, max ends]`,
distinct messages joined with a semicolon when more than one, distinct
truthy suggestions joined with a semicolon when present. -/
theorem composite_merge_overlapping (issues : List Issue) :
    (sortIssuesByOffset issues).Perm issues ∧
    (sortIssuesByOffset issues).Pairwise (fun a b =>
      a.offset_start < b.offset_start ∨
        (a.offset_start = b.offset_start ∧ a.offset_end ≤ b.offset_end)) ∧
    (issues = [] → mergeOverlappingIssues issues = []) ∧
    (issues ≠ [] →
      ∃ chunks : List (List Issue),
        chunks.flatten = sortIssuesByOffset issues ∧
        (∀ c ∈ chunks, c ≠ [] ∧ c.Chain' (fun a b => overlapCond a b = true)) ∧
        chunks.Chain' (fun c1 c2 =>
          ∀ a ∈ c1.getLast?, ∀ b ∈ c2.head?, overlapCond a b = false) ∧
        mergeOverlappingIssues issues = chunks.map mergeIssueGroup ∧
        (∀ c ∈ chunks, ∃ base ∈ c, (∀ i ∈ c, i.confidence ≤ base.confidence) ∧
          (∀ i ∈ c, (mergeIssueGroup c).offset_start ≤ i.offset_start) ∧
          (mergeIssueGroup c).offset_start ∈ c.map (fun i => i.offset_start) ∧
          (∀ i ∈ c, i.offset_end ≤ (mergeIssueGroup c).offset_end) ∧
          (mergeIssueGroup c).offset_end ∈ c.map (fun i => i.offset_end) ∧
          ∃ msgs sugs : List String, msgs.Nodup ∧ sugs.Nodup ∧
            (∀ m, m ∈ msgs ↔ ∃ i ∈ c, i.message = m) ∧
            (∀ t, t ∈ sugs ↔ ∃ i ∈ c, truthyStr i.suggestion = some t) ∧
            mergeIssueGroup c = { base with offset_start := (mergeIssueGroup c).offset_start, offset_end := (mergeIssueGroup c).offset_end, message := if 1 < msgs.length then "Multiple issues: " ++ String.intercalate "; " msgs else base.message, suggestion := if sugs.isEmpty then base.suggestion else some (String.intercalate "; " sugs) })) := by
  refine ⟨sortIssuesByOffset_perm issues, sortIssuesByOffset_pairwise issues, ?_, ?_⟩
  · intro h
    subst h
    rfl
  · intro hne
    have hsne : sortIssuesByOffset issues ≠ [] := by
      intro h
      apply hne
      have hp := sortIssuesByOffset_perm issues
      rw [h] at hp
      exact (hp.symm).eq_nil
    obtain ⟨s0, srest, hs⟩ : ∃ s0 srest, sortIssuesByOffset issues = s0 :: srest := by
      cases hcase : sortIssuesByOffset issues with
      | nil => exact absurd hcase hsne
      | cons a as => exact ⟨a, as, rfl⟩
    have hchunks0 : overlapChunks [] (sortIssuesByOffset issues) =
        overlapChunks [s0] srest := by
      rw [hs]
      rfl
    obtain ⟨hj, hhead, hall, hchain⟩ :=
      overlapChunks_spec srest [s0] (by simp) (List.chain'_singleton _)
    refine ⟨overlapChunks [s0] srest, ?_, hall, hchain, ?_, ?_⟩
    · rw [hj, hs]
      simp
    · unfold mergeOverlappingIssues
      rw [if_neg (by simpa [List.isEmpty_iff] using hne), hchunks0]
    · intro c hc
      exact mergeIssueGroup_spec c (hall c hc).1

/-- Two overlapping same-type issues for the merge example. -/
def overlapIssueA : Issue :=
  { type := .grammar, severity := .warning, message := "First grammar issue",
    offset_start := 0, offset_end := 15 }

def overlapIssueB : Issue :=
  { type := .grammar, severity := .warning, message := "Second grammar issue",
    offset_start := 10, offset_end := 30 }

theorem composite_merge_overlapping_witness :
    ∃ chunks : List (List Issue),
      chunks.flatten = sortIssuesByOffset [overlapIssueA, overlapIssueB] ∧
      (∀ c ∈ chunks, c ≠ [] ∧ c.Chain' (fun a b => overlapCond a b = true)) ∧
      chunks.Chain' (fun c1 c2 =>
        ∀ a ∈ c1.getLast?, ∀ b ∈ c2.head?, overlapCond a b = false) ∧
      mergeOverlappingIssues [overlapIssueA, overlapIssueB] = chunks.map mergeIssueGroup ∧
      (∀ c ∈ chunks, ∃ base ∈ c, (∀ i ∈ c, i.confidence ≤ base.confidence) ∧
        (∀ i ∈ c, (mergeIssueGroup c).offset_start ≤ i.offset_start) ∧
        (mergeIssueGroup c).offset_start ∈ c.map (fun i => i.offset_start) ∧
        (∀ i ∈ c, i.offset_end ≤ (mergeIssueGroup c).offset_end) ∧
        (mergeIssueGroup c).offset_end ∈ c.map (fun i => i.offset_end) ∧
        ∃ msgs sugs : List String, msgs.Nodup ∧ sugs.Nodup ∧
          (∀ m, m ∈ msgs ↔ ∃ i ∈ c, i.message = m) ∧
          (∀ t, t ∈ sugs ↔ ∃ i ∈ c, truthyStr i.suggestion = some t) ∧
          mergeIssueGroup c = { base with offset_start := (mergeIssueGroup c).offset_start, offset_end := (mergeIssueGroup c).offset_end, message := if 1 < msgs.length then "Multiple issues: " ++ String.intercalate "; " msgs else base.message, suggestion := if sugs.isEmpty then base.suggestion else some (String.intercalate "; " sugs) }) :=
  (composite_merge_overlapping [overlapIssueA, overlapIssueB]).2.2.2 (by simp)

end TransQA
